import Mathlib

/-!
Verification of the worksheet intake / job-queue / pipeline-worker system.

The definitions below are a shallow embedding of the JavaScript source:

* `tool-a-intake/src/id.js` — worksheet identifier scheme;
* `tool-a-intake/src/fs-json.js` — atomic JSON store (`readJson`);
* `tool-a-intake/src/repository.js` — intake repository
  (`enqueueUploadedWorksheet` queue upsert, `getWorksheetStatus`);
* the batch pipeline script (`resolveWorksheetIds`, `updateQueueState`,
  `updateMetadata`, `markFailure`, `processWorksheet`, `run`, `main`).

Machine-level concerns are modelled explicitly: JavaScript timestamps are
`Int` milliseconds, `Date.parse` results are `Option Int` (`none` = `NaN`),
JSON documents are typed records, and external effects (child processes,
the file system outside the two persisted stores) are oracles passed in as
explicit data.
-/

set_option maxHeartbeats 1000000

/-! ## Identifier scheme (`tool-a-intake/src/id.js`) -/

/-- Character class of the regex token `\d` (JavaScript `[0-9]`). -/
def isDigitCh (c : Char) : Bool :=
  '0' ≤ c && c ≤ '9'

/-- Character class of `[a-f0-9]` under the regex `i` flag: either case of
hex letters is accepted. -/
def isHexCI (c : Char) : Bool :=
  isDigitCh c || ('a' ≤ c && c ≤ 'f') || ('A' ≤ c && c ≤ 'F')

/-- Character class of `[a-f0-9]` without the `i` flag: lowercase hex only.
Used to state the spec's claimed shape. -/
def isLowerHex (c : Char) : Bool :=
  isDigitCh c || ('a' ≤ c && c ≤ 'f')

/-- `isWorksheetId` from `id.js`: the regex test
`/^ws_\d{8}_[a-f0-9]{6}$/i` on the candidate string.  The regex is anchored
at both ends, so it fixes the total length to 18 characters; the `i` flag
makes both the `ws_` literal and the hex block case-insensitive. -/
def isWorksheetId (s : String) : Bool :=
  let cs := s.data
  decide (cs.length = 18) &&
  ((cs.take 2).map Char.toLower == ['w', 's']) &&
  ((cs.drop 2).take 1 == ['_']) &&
  ((cs.drop 3).take 8).all isDigitCh &&
  ((cs.drop 11).take 1 == ['_']) &&
  ((cs.drop 12).all isHexCI)

/-- The shape the spec claims for worksheet IDs, taken from the spec's
words: literal `ws_`, 8 decimal digits, `_`, then 6 *lowercase* hex
characters.  Stated separately from `isWorksheetId` so the two can be
compared. -/
def wsShapeStrict (s : String) : Bool :=
  let cs := s.data
  decide (cs.length = 18) &&
  (cs.take 3 == ['w', 's', '_']) &&
  ((cs.drop 3).take 8).all isDigitCh &&
  ((cs.drop 11).take 1 == ['_']) &&
  ((cs.drop 12).all isLowerHex)

/-- The set of strings the implementation's regex accepts, written as a
structural decomposition: two characters that lowercase to `w`,`s`, an
underscore, 8 digits, an underscore, 6 hex characters of either case. -/
def WsShapeCI (s : String) : Prop :=
  ∃ c1 c2 ds hs, s.data = c1 :: c2 :: '_' :: (ds ++ '_' :: hs) ∧
    c1.toLower = 'w' ∧ c2.toLower = 's' ∧
    ds.length = 8 ∧ (∀ c ∈ ds, isDigitCh c = true) ∧
    hs.length = 6 ∧ (∀ c ∈ hs, isHexCI c = true)

/-- JavaScript `String(n).padStart(2, "0")` for a non-negative integer. -/
def pad2 (n : Nat) : String :=
  if n < 10 then "0" ++ toString n else toString n

/-- `formatUtcDate` from `id.js`: the UTC year is rendered with `String`
(no padding), month and day are zero-padded to two characters.  The date
is modelled by its UTC components. -/
def formatUtcDate (year month day : Nat) : String :=
  toString year ++ pad2 month ++ pad2 day

/-- One lowercase hex digit, as produced by `Buffer.toString("hex")`. -/
def hexDigitChar (n : Nat) : Char :=
  if n < 10 then Char.ofNat ('0'.toNat + n) else Char.ofNat ('a'.toNat + (n - 10))

/-- `Buffer.toString("hex")` on a byte buffer: two lowercase hex digits per
byte, most significant first. -/
def bytesToHexChars (bs : List Nat) : List Char :=
  (bs.map (fun b => [hexDigitChar (b / 16 % 16), hexDigitChar (b % 16)])).flatten

/-- `generateWorksheetId` from `id.js`: `ws_` + the formatted UTC date +
`_` + the first 6 characters of the hex rendering of the 4 random bytes.
The input date is modelled by its UTC year/month/day, the output of
`crypto.randomBytes(4)` by the byte list. -/
def generateWorksheetId (year month day : Nat) (randomBytes : List Nat) : String :=
  "ws_" ++ formatUtcDate year month day ++ "_" ++ String.mk ((bytesToHexChars randomBytes).take 6)

/-! ## Atomic store (`tool-a-intake/src/fs-json.js`) -/

/-- Raw text content of a file, modelled by its JSON parse outcome:
`JSON.parse` either returns a value of the document type or throws. -/
inductive JsonText (α : Type) where
  | wellFormed (v : α)
  | malformed (err : String)
deriving DecidableEq, Repr

/-- Outcome of `fs.readFile` for one path: the file is missing (the thrown
error has `code === "ENOENT"`), unreadable for another reason, or its
content is returned. -/
inductive FileRead (α : Type) where
  | enoent
  | ioError (msg : String)
  | content (t : JsonText α)
deriving DecidableEq, Repr

/-- `readJson(filePath, fallback)` from `fs-json.js`: `readFile` then
`JSON.parse` inside a `try`; the `catch` returns `fallback` only when the
caught error carries `code === "ENOENT"` and rethrows anything else.  A
`JSON.parse` error has no `ENOENT` code, so it is rethrown.  The file
system is modelled as a map from paths to read outcomes. -/
def readJson {α : Type} (fs : String → FileRead α) (filePath : String) (fallback : α) :
    Except String α :=
  match fs filePath with
  | .enoent => .ok fallback
  | .ioError msg => .error msg
  | .content (.wellFormed v) => .ok v
  | .content (.malformed err) => .error err

/-- A file system where the path is missing; for instantiating theorems. -/
def fsMissing : String → FileRead Nat := fun _ => .enoent

/-- A file system where reading fails with a non-ENOENT error. -/
def fsDenied : String → FileRead Nat := fun _ => .ioError "EACCES: permission denied"

/-- A file system where the file exists but does not parse as JSON. -/
def fsMalformed : String → FileRead Nat := fun _ => .content (.malformed "Unexpected end of JSON input")

/-- A file system where the file exists and parses to the value 3. -/
def fsGood : String → FileRead Nat := fun _ => .content (.wellFormed 3)

/-! ## Persisted documents (`§3` data model, as written by the source) -/

/-- A timestamp-valued JSON field: either text that `Date.parse`
understands (kept as its epoch milliseconds) or garbage text that parses
to `NaN`. -/
inductive TimeVal where
  | stamp (ms : Int)
  | garbage (s : String)
deriving DecidableEq, Repr

/-- `Date.parse(String(v || ""))` as used on `started_at`: a missing field
becomes `""` and parses to `NaN` (modelled `none`), garbage text also
gives `NaN`, a real timestamp its epoch milliseconds. -/
def parseTime : Option TimeVal → Option Int
  | some (.stamp ms) => some ms
  | _ => none

/-- JavaScript truthiness of an optional string-typed field: absent and
`""` are falsy, everything else truthy (a parsable timestamp string is
never empty). -/
def jsTruthy : Option TimeVal → Bool
  | some (.stamp _) => true
  | some (.garbage s) => !(s == "")
  | none => false

/-- JavaScript `String.prototype.trim()`: strip leading and trailing
whitespace.  Implemented by structural recursion on the character list so
that concrete instances evaluate inside the kernel. -/
def jsTrim (s : String) : String :=
  String.mk (((s.data.dropWhile Char.isWhitespace).reverse.dropWhile Char.isWhitespace).reverse)

/-- One `metadata/<id>.json` document, with the fields the source writes.
`attempts`-style numeric quirks do not arise here; optional fields are
`Option`. -/
structure WorksheetMetadata where
  worksheet_id : String
  title : Option String := none
  owner_email : Option String := none
  original_filename : String := "original.zip"
  artifact_path : String := ""
  state : String := "queued"
  uploaded_at : Option TimeVal := none
  integrated_at : Option TimeVal := none
  last_error : Option String := none
deriving DecidableEq, Repr

/-- One entry of `queue/pending.json`'s `jobs` array.  `attempts` is
`Option Int`: `none` models a missing or non-numeric field (the source
guards every use with `Number.isFinite`). -/
structure PendingJob where
  worksheet_id : String
  state : String
  attempts : Option Int := some 0
  queued_at : Option TimeVal := none
  started_at : Option TimeVal := none
deriving DecidableEq, Repr

/-- The metadata directory: one entry per stored file, keyed by the file
stem (`<key>.json` holds the parsed document).  Scans iterate in list
order; lookups read `metadata/<key>.json`.  The model covers well-formed
stored documents (a malformed file is an infrastructure error outside the
queue claims). -/
abbrev MetaStore := List (String × WorksheetMetadata)

/-- `readJson(METADATA_DIR/<w>.json, null)`: the document stored under
file stem `w`, if any (file names are unique, so the first match is the
file). -/
def lookupMeta : MetaStore → String → Option WorksheetMetadata
  | [], _ => none
  | e :: rest, w => if e.1 == w then some e.2 else lookupMeta rest w

/-- `writeJsonAtomic(METADATA_DIR/<w>.json, v)` over an existing file:
replaces the document stored under stem `w`. -/
def setMeta : MetaStore → String → WorksheetMetadata → MetaStore
  | [], _, _ => []
  | e :: rest, w, v => (if e.1 == w then (e.1, v) else e) :: setMeta rest w v

/-! ## Intake repository (`tool-a-intake/src/repository.js`) -/

/-- The pending-list update inside `enqueueUploadedWorksheet`: `nextJob`
is `{worksheet_id, state: "queued", attempts: 0, queued_at}`;
`findIndex` locates the first entry with this worksheet ID and replaces it
with the object spread `{...existing, ...nextJob}` — fields absent from
`nextJob`, in particular `started_at`, are kept from the existing entry —
otherwise `nextJob` is appended. -/
def enqueueQueueUpdate (worksheetId : String) (uploadedAt : TimeVal) :
    List PendingJob → List PendingJob
  | [] => [{ worksheet_id := worksheetId, state := "queued", attempts := some 0,
             queued_at := some uploadedAt, started_at := none }]
  | job :: rest =>
    if job.worksheet_id == worksheetId then
      { job with
          worksheet_id := worksheetId
          state := "queued"
          attempts := some 0
          queued_at := some uploadedAt } :: rest
    else
      job :: enqueueQueueUpdate worksheetId uploadedAt rest

/-- The metadata record `enqueueUploadedWorksheet` writes. -/
def enqueueMetadata (worksheetId : String) (title ownerEmail : Option String)
    (originalFilename : String) (uploadedAt : TimeVal) : WorksheetMetadata :=
  { worksheet_id := worksheetId, title := title, owner_email := ownerEmail,
    original_filename := originalFilename,
    artifact_path := "storage/intake/" ++ worksheetId ++ "/original.zip",
    state := "queued", uploaded_at := some uploadedAt,
    integrated_at := none, last_error := none }

/-- The merged status view returned by `getWorksheetStatus`. -/
structure WorksheetStatus where
  worksheet_id : String
  state : String
  uploaded_at : Option TimeVal
  integrated_at : Option TimeVal
  last_error : Option String
deriving DecidableEq, Repr

/-- `metadata.uploaded_at || null`: an empty-string value is falsy and
becomes `null`. -/
def jsOrNullTime (v : Option TimeVal) : Option TimeVal :=
  if jsTruthy v then v else none

/-- The `state` expression of `getWorksheetStatus`:
`(typeof metadata.state === "string" && metadata.state.trim()) ||
(typeof queueEntry?.state === "string" && queueEntry.state.trim()) ||
"queued"`.  A trimmed-empty string is falsy and falls through. -/
def statusState (metadata : WorksheetMetadata) (queueEntry : Option PendingJob) : String :=
  if jsTrim metadata.state ≠ "" then jsTrim metadata.state
  else
    match queueEntry with
    | some job => if jsTrim job.state ≠ "" then jsTrim job.state else "queued"
    | none => "queued"

/-- `getWorksheetStatus(config, worksheetId)`: `null` when the metadata
file is absent (the `fileExists` check, or a metadata document that reads
back as JSON `null`, both modelled by `lookupMeta = none`); otherwise a
view built from the metadata record plus the first pending-list entry with
the same worksheet ID. -/
def getWorksheetStatus (mstore : MetaStore) (jobs : List PendingJob) (worksheetId : String) :
    Option WorksheetStatus :=
  match lookupMeta mstore worksheetId with
  | none => none
  | some metadata =>
    let queueEntry := jobs.find? (fun job => job.worksheet_id == worksheetId)
    some { worksheet_id := metadata.worksheet_id,
           state := statusState metadata queueEntry,
           uploaded_at := jsOrNullTime metadata.uploaded_at,
           integrated_at := metadata.integrated_at,
           last_error := metadata.last_error }

/-- The §3 pending-list invariant under scrutiny in the claims: a
`started_at` value is carried (as a truthy, i.e. non-empty, value — the
only kind this code ever writes) only by entries whose state is
`processing`. -/
def startedOnlyWhileProcessing (jobs : List PendingJob) : Bool :=
  jobs.all (fun job => !jsTruthy job.started_at || job.state == "processing")

/-- At most one pending-list entry per worksheet ID. -/
def uniqueWorksheetIds (jobs : List PendingJob) : Prop :=
  ∀ w, jobs.countP (fun job => job.worksheet_id == w) ≤ 1

/-! ## Batch pipeline job store mutations (batch script) -/

/-- The two persisted structures the batch script mutates: the metadata
directory and the pending-list `jobs` array. -/
structure PipelineState where
  mstore : MetaStore
  jobs : List PendingJob
deriving DecidableEq, Repr

/-- The `queue.jobs.map` body of `updateQueueState`: entries with another
worksheet ID pass through; for the matching entry the state is replaced,
`attempts` is incremented (from 0 when missing/non-numeric) only when
entering `processing` and otherwise kept (filled with 0 when
missing/non-numeric), `started_at` is stamped on entering `processing` and
deleted on any other target state when it holds a truthy value, and a
falsy `queued_at` is backfilled with the current time. -/
def updateQueueJob (worksheetId stateArg : String) (now : TimeVal) (job : PendingJob) :
    PendingJob :=
  if job.worksheet_id ≠ worksheetId then job
  else
    let next : PendingJob :=
      if stateArg == "processing" then
        { job with
            state := stateArg
            attempts := some (match job.attempts with | some n => n + 1 | none => 1)
            started_at := some now }
      else
        { job with state := stateArg, attempts := some (job.attempts.getD 0) }
    let next2 : PendingJob :=
      if !(stateArg == "processing") && jsTruthy next.started_at then
        { next with started_at := none }
      else next
    if jsTruthy next2.queued_at then next2 else { next2 with queued_at := some now }

/-- `updateQueueState(worksheetId, state)` from the batch script: map the
per-entry update over the list; when no entry carried this worksheet ID,
push a fresh entry (attempts 1 and a `started_at` stamp when the target
state is `processing`, attempts 0 otherwise). -/
def updateQueueState (jobs : List PendingJob) (worksheetId stateArg : String) (now : TimeVal) :
    List PendingJob :=
  let mapped := jobs.map (updateQueueJob worksheetId stateArg now)
  if jobs.any (fun job => job.worksheet_id == worksheetId) then mapped
  else
    mapped ++ [{ worksheet_id := worksheetId, state := stateArg,
                 attempts := some (if stateArg == "processing" then (1 : Int) else 0),
                 queued_at := some now,
                 started_at := if stateArg == "processing" then some now else none }]

/-- A partial metadata update, as passed to `updateMetadata`: a field set
in the patch overwrites the stored field (possibly with `null`). -/
structure MetaPatch where
  state : Option String := none
  integrated_at : Option (Option TimeVal) := none
  last_error : Option (Option String) := none

/-- Object spread `{ ...current, ...patch }`. -/
def applyPatch (m : WorksheetMetadata) (p : MetaPatch) : WorksheetMetadata :=
  { m with
      state := p.state.getD m.state
      integrated_at := p.integrated_at.getD m.integrated_at
      last_error := p.last_error.getD m.last_error }

/-- `updateMetadata(worksheetId, patch)` from the batch script: read the
metadata document, throw `Missing metadata for <id>` when it is absent,
otherwise write the merged record back. -/
def updateMetadata (st : PipelineState) (worksheetId : String) (patch : MetaPatch) :
    Except String PipelineState :=
  match lookupMeta st.mstore worksheetId with
  | none => .error ("Missing metadata for " ++ worksheetId)
  | some current =>
    .ok { st with mstore := setMeta st.mstore worksheetId (applyPatch current patch) }

/-- `markFailure(worksheetId, errorMessage)`: metadata state → `failed`
with the error text, then pending-list state → `failed`.  The
`updateMetadata` error (missing metadata) propagates. -/
def markFailure (st : PipelineState) (worksheetId errorMessage : String) (now : TimeVal) :
    Except String PipelineState :=
  match updateMetadata st worksheetId
      { state := some "failed", last_error := some (some errorMessage) } with
  | .error e => .error e
  | .ok st1 => .ok { st1 with jobs := updateQueueState st1.jobs worksheetId "failed" now }

/-- Outcomes of the external effects `processWorksheet` awaits after the
claim step, one field per step in source order.  Each field is the result
the corresponding call would produce (`.error` = the summary message of
the exception it throws); `hasBuildScript` is whether the extracted
project's `package.json` declares a `build` script. -/
structure StepEffects where
  prepareWorkspace : Except String Unit
  unzip : Except String Unit
  detectProjectRoot : Except String Unit
  codexRewrite : Except String Unit
  sanitizeGuardrails : Except String Unit
  npmInstall : Except String Unit
  hasBuildScript : Bool
  npmBuild : Except String Unit
  copyOutput : Except String Unit
  verifyShippableOutput : Except String Unit
  verifyOpenAiConnectivity : Except String Unit

/-- The post-claim body of `processWorksheet` in source order: workspace
prepare (`fs.rm`/`fs.mkdir`), `unzip`, `detectProjectRoot`, the codex
rewrite (only in `codex` mode), `sanitizeGuardrails`, `npm install`, `npm
run build` + copy of `dist` when a build script is declared (otherwise
copy of the project), `verifyShippableOutput`, then
`verifyOpenAiConnectivity`.  The first failing step aborts the rest. -/
def pipelineSteps (mode : String) (eff : StepEffects) : Except String Unit := do
  eff.prepareWorkspace
  eff.unzip
  eff.detectProjectRoot
  if mode == "codex" then eff.codexRewrite
  eff.sanitizeGuardrails
  eff.npmInstall
  if eff.hasBuildScript then
    eff.npmBuild
    eff.copyOutput
  else
    eff.copyOutput
  eff.verifyShippableOutput
  eff.verifyOpenAiConnectivity

/-- One row of the summary table `main` prints. -/
structure BatchSummary where
  worksheet_id : String
  state : String
  output : Option String := none
  error : Option String := none
deriving DecidableEq, Repr

/-- `processWorksheet(worksheetId, mode)`: read metadata (throw `No
metadata found for <id>` when absent), claim the job (metadata state
`processing` with `last_error` cleared, pending entry `processing`), run
the external steps, then finalize (metadata `integrated` with
`integrated_at` stamped and `last_error` cleared, pending entry
`completed`).  The returned state carries every store write performed
before a failure, since the writes hit disk as they happen. -/
def processWorksheet (st : PipelineState) (worksheetId mode : String) (eff : StepEffects)
    (now : TimeVal) : PipelineState × Except String BatchSummary :=
  match lookupMeta st.mstore worksheetId with
  | none => (st, .error ("No metadata found for " ++ worksheetId))
  | some _ =>
    match updateMetadata st worksheetId { state := some "processing", last_error := some none } with
    | .error e => (st, .error e)
    | .ok st1 =>
      let st2 := { st1 with jobs := updateQueueState st1.jobs worksheetId "processing" now }
      match pipelineSteps mode eff with
      | .error e => (st2, .error e)
      | .ok _ =>
        match updateMetadata st2 worksheetId
            { state := some "integrated", integrated_at := some (some now),
              last_error := some none } with
        | .error e => (st2, .error e)
        | .ok st3 =>
          ({ st3 with jobs := updateQueueState st3.jobs worksheetId "completed" now },
           .ok { worksheet_id := worksheetId, state := "integrated",
                 output := some ("shippable/" ++ worksheetId) })

/-- The per-job loop of `main`: process each resolved worksheet ID in
order; an exception from `processWorksheet` is caught, `markFailure` runs
inside the catch block, and the loop continues — but an exception from
`markFailure` itself is uncaught and rejects `main`, aborting the batch
(modelled by the `Except.error` result). -/
def runBatch (st : PipelineState) (ids : List String) (mode : String)
    (eff : String → StepEffects) (now : TimeVal) :
    Except String (PipelineState × List BatchSummary) :=
  match ids with
  | [] => .ok (st, [])
  | worksheetId :: rest =>
    match processWorksheet st worksheetId mode (eff worksheetId) now with
    | (st1, .ok summary) =>
      match runBatch st1 rest mode eff now with
      | .ok (stf, sums) => .ok (stf, summary :: sums)
      | .error e => .error e
    | (st1, .error msg) =>
      match markFailure st1 worksheetId msg now with
      | .ok st2 =>
        match runBatch st2 rest mode eff now with
        | .ok (stf, sums) =>
          .ok (stf, { worksheet_id := worksheetId, state := "failed", error := some msg } :: sums)
        | .error e => .error e
      | .error e2 => .error e2

/-- Step effects where every external call succeeds and the project has no
build script; used to instantiate theorems at concrete inputs. -/
def sampleEffectsOk : StepEffects :=
  { prepareWorkspace := .ok (), unzip := .ok (), detectProjectRoot := .ok (),
    codexRewrite := .ok (), sanitizeGuardrails := .ok (), npmInstall := .ok (),
    hasBuildScript := false, npmBuild := .ok (), copyOutput := .ok (),
    verifyShippableOutput := .ok (), verifyOpenAiConnectivity := .ok () }

/-- Step effects where `npm install` fails with a network timeout; used to
instantiate theorems at concrete inputs. -/
def sampleEffectsFail : StepEffects :=
  { sampleEffectsOk with npmInstall := .error "npm install failed (1)\nETIMEDOUT" }

/-- The effects oracle used to instantiate theorems: every worksheet's
`npm install` fails with a network timeout. -/
def sampleEffectsRun : String → StepEffects := fun _ => sampleEffectsFail

/-! ## Job discovery (batch script `resolveWorksheetIds`) -/

/-- `parsePositiveInt(value, fallback)`: `Number(value)` is modelled as an
`Option Int` (`none` covers an unset variable or text that is not a finite
number); positive values are kept (`Math.floor` is the identity on
integers), anything else falls back. -/
def parsePositiveInt (value : Option Int) (fallback : Nat) : Nat :=
  match value with
  | some n => if 0 < n then n.toNat else fallback
  | none => fallback

/-- Lowercase every character, as the regex `i` flag does for the
comparison. -/
def lowerStr (s : String) : String :=
  String.mk (s.data.map Char.toLower)

/-- `isTruthyEnv(value, fallback)`: `null`/`""` give the fallback;
otherwise the value is truthy unless its trimmed text matches
`/^(0|false|no|off)$/i`. -/
def isTruthyEnv (value : Option String) (fallback : Bool) : Bool :=
  match value with
  | none => fallback
  | some s =>
    if s == "" then fallback
    else
      let t := lowerStr (jsTrim s)
      !(t == "0" || t == "false" || t == "no" || t == "off")

/-- Case-insensitive "is this pattern an initial segment of the text". -/
def isPrefixCI : List Char → List Char → Bool
  | [], _ => true
  | _ :: _, [] => false
  | p :: ps, c :: cs => (p.toLower == c.toLower) && isPrefixCI ps cs

/-- Unanchored case-insensitive search, the effect of
`/pat/i.test(text)` for a pattern with no metacharacters. -/
def containsCI (pat : List Char) : List Char → Bool
  | [] => isPrefixCI pat []
  | c :: rest => isPrefixCI pat (c :: rest) || containsCI pat rest

/-- After the literal `ENOTFOUND`, the regex `\s+` plus the host: consume
one whitespace character, then either the host follows or more whitespace
is consumed. -/
def wsThenHost (host : List Char) : List Char → Bool
  | [] => false
  | c :: rest =>
    if c.isWhitespace then isPrefixCI host rest || wsThenHost host rest
    else false

/-- `/ENOTFOUND\s+<host>/i` at one starting position. -/
def matchesENOTFOUNDAt (host : List Char) (cs : List Char) : Bool :=
  if isPrefixCI "ENOTFOUND".data cs then wsThenHost host (cs.drop 9) else false

/-- Unanchored `/ENOTFOUND\s+<host>/i` search. -/
def searchENOTFOUND (host : List Char) : List Char → Bool
  | [] => false
  | c :: rest => matchesENOTFOUNDAt host (c :: rest) || searchENOTFOUND host rest

/-- `/network request to https?:\/\/registry\.npmjs\.org/i` at one
starting position: the literal prefix through `http`, then an optional
`s`, then `://registry.npmjs.org`. -/
def matchesNetworkReqAt (cs : List Char) : Bool :=
  if isPrefixCI "network request to http".data cs then
    isPrefixCI "s://registry.npmjs.org".data (cs.drop 23) ||
    isPrefixCI "://registry.npmjs.org".data (cs.drop 23)
  else false

/-- Unanchored search for the npm-registry network-request pattern. -/
def searchNetworkReq : List Char → Bool
  | [] => false
  | c :: rest => matchesNetworkReqAt (c :: rest) || searchNetworkReq rest

/-- `isRetryableFailure(errorMessage)`: `String(errorMessage || "")` is
tested against the five `RETRYABLE_FAILURE_PATTERNS` regexes (DNS failure
reaching the npm registry or the OpenAI API, `ETIMEDOUT`, `ECONNRESET`,
and an npm network-request message), all case-insensitive. -/
def isRetryableFailure (errorMessage : Option String) : Bool :=
  let text := errorMessage.getD ""
  searchENOTFOUND "registry.npmjs.org".data text.data ||
  searchENOTFOUND "api.openai.com".data text.data ||
  containsCI "ETIMEDOUT".data text.data ||
  containsCI "ECONNRESET".data text.data ||
  searchNetworkReq text.data

/-- The environment knobs and clock `resolveWorksheetIds` consumes. -/
structure DiscoveryEnv where
  processingStaleMs : Option Int := none
  retryFailedJobs : Option String := none
  maxFailedAttempts : Option Int := none
  nowMs : Int := 0
deriving Repr

/-- `parsePositiveInt(process.env.PROCESSING_STALE_MS, 20 * 60 * 1000)`. -/
def staleMsOf (env : DiscoveryEnv) : Nat :=
  parsePositiveInt env.processingStaleMs (20 * 60 * 1000)

/-- `isTruthyEnv(process.env.RETRY_FAILED_JOBS, true)`. -/
def retryOf (env : DiscoveryEnv) : Bool :=
  isTruthyEnv env.retryFailedJobs true

/-- `parsePositiveInt(process.env.MAX_FAILED_ATTEMPTS, 4)`. -/
def maxAttemptsOf (env : DiscoveryEnv) : Nat :=
  parsePositiveInt env.maxFailedAttempts 4

/-- The pending-list loop body of `resolveWorksheetIds` for one job, as a
partial selection function (`some id` = the job's trimmed worksheet ID is
pushed onto `queuedFromQueue`).  The `typeof job?.worksheet_id` guard is
always satisfied in this typed model.  A `queued` job is always selected;
a `processing` job when `Date.parse(started_at)` is `NaN` or the job is at
least the staleness threshold old; a `failed` job only with retries on,
attempts strictly below the cap, and a transient `last_error` in the job's
metadata document. -/
def jobSelects (env : DiscoveryEnv) (mstore : MetaStore) (job : PendingJob) : Option String :=
  let worksheetId := jsTrim job.worksheet_id
  if worksheetId == "" then none
  else if job.state == "queued" then some worksheetId
  else if job.state == "processing" then
    let stale :=
      match parseTime job.started_at with
      | none => true
      | some startedMs => env.nowMs - startedMs ≥ (staleMsOf env : Int)
    if stale then some worksheetId else none
  else if retryOf env && (job.state == "failed") then
    if job.attempts.getD 0 ≥ (maxAttemptsOf env : Int) then none
    else if isRetryableFailure
        ((lookupMeta mstore worksheetId).bind WorksheetMetadata.last_error) then
      some worksheetId
    else none
  else none

/-- The `queuedFromQueue` accumulation over the pending list. -/
def scanQueue (env : DiscoveryEnv) (mstore : MetaStore) (jobs : List PendingJob) : List String :=
  jobs.filterMap (jobSelects env mstore)

/-- The metadata-directory loop body for one stored document (`some id` =
the document's trimmed `worksheet_id` is pushed onto
`discoveredFromMetadata`): selected when the state is `queued`, or when
retries are on, the state is `failed`, and the `last_error` is
transient — with no attempts-cap check. -/
def metaSelects (env : DiscoveryEnv) (entry : String × WorksheetMetadata) : Option String :=
  let metadata := entry.2
  if metadata.state == "queued" then some (jsTrim metadata.worksheet_id)
  else if retryOf env && (metadata.state == "failed") &&
      isRetryableFailure metadata.last_error then
    some (jsTrim metadata.worksheet_id)
  else none

/-- The `discoveredFromMetadata` accumulation over the metadata directory
(well-formed documents; the surrounding `try` that swallows scan errors
never fires in this model). -/
def scanMetadata (env : DiscoveryEnv) (mstore : MetaStore) : List String :=
  mstore.filterMap (metaSelects env)

/-- One directory of `intake/` as the scan sees it: its name, whether
`original.zip` exists inside, and the zip's `mtime` when `fs.stat`
resolves. -/
structure IntakeEntry where
  name : String
  hasZip : Bool
  mtime : Option TimeVal := none
deriving DecidableEq, Repr

/-- `ensureMetadataFromIntake`: return the existing metadata document, or
create (and persist) a fresh `queued` one from the intake artifact. -/
def ensureMetadataFromIntake (worksheetId : String) (uploadedAt : Option TimeVal)
    (mstore : MetaStore) : WorksheetMetadata × MetaStore :=
  match lookupMeta mstore worksheetId with
  | some existing => (existing, mstore)
  | none =>
    let metadata : WorksheetMetadata :=
      { worksheet_id := worksheetId
        original_filename := "original.zip"
        artifact_path := "storage/intake/" ++ worksheetId ++ "/original.zip"
        state := "queued"
        uploaded_at := uploadedAt }
    (metadata, mstore ++ [(worksheetId, metadata)])

/-- The intake-directory scan: directories with a worksheet-ID name and an
`original.zip` get their metadata ensured; those whose (possibly just
created) metadata is in state `queued` are pushed onto
`discoveredFromIntake`.  Threads the metadata store because the scan
writes missing documents. -/
def scanIntake : List IntakeEntry → MetaStore → List String × MetaStore
  | [], mstore => ([], mstore)
  | entry :: rest, mstore =>
    if isWorksheetId entry.name && entry.hasZip then
      let em := ensureMetadataFromIntake entry.name entry.mtime mstore
      let ir := scanIntake rest em.2
      if em.1.state == "queued" then (entry.name :: ir.1, ir.2) else ir
    else
      scanIntake rest mstore

/-- `[...new Set(list)]`: deduplicate keeping the first occurrence of each
element, in order. -/
def dedupKeepFirst (seen : List String) : List String → List String
  | [] => []
  | x :: xs =>
    if seen.contains x then dedupKeepFirst seen xs
    else x :: dedupKeepFirst (x :: seen) xs

/-- The three scans of `resolveWorksheetIds` in discovery order, then the
`Set`-based deduplication. -/
def resolveScan (env : DiscoveryEnv) (jobs : List PendingJob) (mstore : MetaStore)
    (intake : List IntakeEntry) : List String × MetaStore :=
  let ir := scanIntake intake mstore
  (dedupKeepFirst [] (scanQueue env mstore jobs ++ scanMetadata env mstore ++ ir.1), ir.2)

/-- `resolveWorksheetIds(targetWorksheetId)`: a truthy explicit target
short-circuits to a singleton; otherwise the union of the pending-list,
metadata-directory and intake-directory scans, deduplicated in discovery
order. -/
def resolveWorksheetIds (env : DiscoveryEnv) (targetWorksheetId : Option String)
    (jobs : List PendingJob) (mstore : MetaStore) (intake : List IntakeEntry) :
    List String × MetaStore :=
  match targetWorksheetId with
  | some t => if t == "" then resolveScan env jobs mstore intake else ([t], mstore)
  | none => resolveScan env jobs mstore intake

/-- The claim's reading of "older than the staleness threshold": strictly
older. -/
def strictlyOlderThan (nowMs startedMs : Int) (staleMs : Nat) : Prop :=
  nowMs - startedMs > (staleMs : Int)

/-! ## Process supervisor (`run(cmd, args, cwd, options)`) -/

/-- Static data of one `run` invocation; `timeoutMs` is the result of
`parsePositiveInt(options.timeoutMs, 0)` — 0 means no soft timer is
armed. -/
structure RunCfg where
  cmd : String
  args : List String
  timeoutMs : Nat
deriving Repr

/-- Events delivered to the handlers `run` registers, in the order the
event loop fires them: stream data, the soft-timeout timer firing, the
hard-kill timer firing, the child `close` event (`code` is `null`,
modelled `none`, when the child died from a signal), and the child
`error` event. -/
inductive RunEvent where
  | dataOut (s : String)
  | dataErr (s : String)
  | softTimeout
  | hardTimeout
  | closeEv (code : Option Int)
  | errorEv (msg : String)
deriving DecidableEq, Repr

/-- Externally visible actions the handlers perform: `child.kill` with
either signal, and arming the hard-kill timer with its delay. -/
inductive RunAction where
  | sigterm
  | sigkill
  | armHardKill (ms : Nat)
deriving DecidableEq, Repr

/-- The mutable state of one `run` invocation: the captured streams, the
`finished` latch checked by `finalize`, whether the hard-kill timer was
armed, and the settled promise value (`none` while pending). -/
structure RunState where
  stdout : String := ""
  stderr : String := ""
  finished : Bool := false
  hardArmed : Bool := false
  result : Option (Except String (String × String)) := none

/-- `args.join(" ")`. -/
def joinSpace : List String → String
  | [] => ""
  | [a] => a
  | a :: rest => a ++ " " ++ joinSpace rest

/-- `${code}` for the close code: a number prints as itself, `null` as
`"null"`. -/
def codeText : Option Int → String
  | some c => toString c
  | none => "null"

/-- The rejection message for a non-zero exit:
`` `${cmd} ${args.join(" ")} failed (${code})\n${stdout}\n${stderr}`.trim() ``. -/
def failMessage (cfg : RunCfg) (stdout stderr : String) (code : Option Int) : String :=
  jsTrim (cfg.cmd ++ " " ++ joinSpace cfg.args ++ " failed (" ++ codeText code ++ ")\n" ++
    stdout ++ "\n" ++ stderr)

/-- The text the soft-timeout handler appends to the captured stderr. -/
def timeoutNote (cfg : RunCfg) : String :=
  "\n" ++ cfg.cmd ++ " " ++ joinSpace cfg.args ++ " timed out after " ++
    toString cfg.timeoutMs ++ "ms"

/-- One handler invocation of `run`: data events append to the captured
streams; the soft timer (armed only when `timeoutMs > 0`, and a no-op once
finished) appends the timeout note to stderr, sends `SIGTERM` and arms the
5000 ms hard-kill timer; the hard-kill timer sends `SIGKILL` when the
child is still unfinished; `close` settles the promise through `finalize`
— resolving with the captured output only for exit code 0, rejecting with
the embedding message otherwise; `error` rejects.  `finalize`'s `finished`
latch makes every later settle attempt a no-op. -/
def runStep (cfg : RunCfg) (st : RunState) : RunEvent → RunState × List RunAction
  | .dataOut s => ({ st with stdout := st.stdout ++ s }, [])
  | .dataErr s => ({ st with stderr := st.stderr ++ s }, [])
  | .softTimeout =>
    if cfg.timeoutMs == 0 || st.finished then (st, [])
    else ({ st with stderr := st.stderr ++ timeoutNote cfg, hardArmed := true },
          [.sigterm, .armHardKill 5000])
  | .hardTimeout =>
    if st.hardArmed && !st.finished then (st, [.sigkill]) else (st, [])
  | .closeEv code =>
    if st.finished then (st, [])
    else ({ st with
              finished := true
              result := some (if code == some 0 then .ok (st.stdout, st.stderr)
                              else .error (failMessage cfg st.stdout st.stderr code)) }, [])
  | .errorEv msg =>
    if st.finished then (st, [])
    else ({ st with finished := true, result := some (.error msg) }, [])

/-- The state every `run` invocation starts from. -/
def initRunState : RunState := {}

/-- Fold the handlers over an event trace, accumulating the actions. -/
def runEvents (cfg : RunCfg) : RunState → List RunAction → List RunEvent →
    RunState × List RunAction
  | st, acts, [] => (st, acts)
  | st, acts, e :: rest =>
    let r := runStep cfg st e
    runEvents cfg r.1 (acts ++ r.2) rest

/-- A sample supervisor configuration for instantiating theorems. -/
def sampleRunCfg : RunCfg := { cmd := "npm", args := ["install"], timeoutMs := 60000 }

/-! ## Theorems

Lemmas and claim theorems about the embedded definitions. -/

/-! ### Decimal and hexadecimal rendering lemmas -/

theorem asString_data (l : List Char) : l.asString.data = l := rfl

theorem toString_nat_eq (n : Nat) : toString n = Nat.repr n := rfl

theorem toDigitsCore_step (f n : Nat) (acc : List Char) (h : 10 ≤ n) :
    Nat.toDigitsCore 10 (f + 1) n acc =
      Nat.toDigitsCore 10 f (n / 10) (Nat.digitChar (n % 10) :: acc) := by
  have hne : ¬ n / 10 = 0 := by omega
  simp only [Nat.toDigitsCore, hne, if_false]

theorem toDigitsCore_last (f n : Nat) (acc : List Char) (h : n < 10) :
    Nat.toDigitsCore 10 (f + 1) n acc = Nat.digitChar (n % 10) :: acc := by
  have hz : n / 10 = 0 := Nat.div_eq_of_lt h
  simp only [Nat.toDigitsCore, hz, if_true]

theorem repr_data_one (n : Nat) (h : n < 10) : (Nat.repr n).data = [Nat.digitChar n] := by
  show ((Nat.toDigitsCore 10 (n + 1) n []).asString).data = _
  rw [toDigitsCore_last n n [] h, Nat.mod_eq_of_lt h]
  rfl

theorem repr_data_two (n : Nat) (h1 : 10 ≤ n) (h2 : n < 100) :
    (Nat.repr n).data = [Nat.digitChar (n / 10), Nat.digitChar (n % 10)] := by
  show ((Nat.toDigitsCore 10 (n + 1) n []).asString).data = _
  obtain ⟨k, rfl⟩ := Nat.exists_eq_add_of_le h1
  rw [show 10 + k + 1 = (10 + k) + 1 from rfl, toDigitsCore_step _ _ _ (by omega)]
  rw [show 10 + k = (9 + k) + 1 from by omega, toDigitsCore_last _ _ _ (by omega)]
  rw [asString_data]
  simp only [List.cons.injEq, and_true]
  and_intros <;> (congr 1 <;> omega)

theorem repr_data_four (n : Nat) (h1 : 1000 ≤ n) (h2 : n < 10000) :
    (Nat.repr n).data =
      [Nat.digitChar (n / 1000), Nat.digitChar (n / 100 % 10),
       Nat.digitChar (n / 10 % 10), Nat.digitChar (n % 10)] := by
  show ((Nat.toDigitsCore 10 (n + 1) n []).asString).data = _
  obtain ⟨k, rfl⟩ := Nat.exists_eq_add_of_le h1
  rw [show 1000 + k + 1 = (1000 + k) + 1 from rfl, toDigitsCore_step _ _ _ (by omega)]
  rw [show 1000 + k = (999 + k) + 1 from by omega, toDigitsCore_step _ _ _ (by omega)]
  rw [show 999 + k = (998 + k) + 1 from by omega, toDigitsCore_step _ _ _ (by omega)]
  rw [show 998 + k = (997 + k) + 1 from by omega, toDigitsCore_last _ _ _ (by omega)]
  rw [asString_data]
  simp only [List.cons.injEq, and_true]
  and_intros <;> (congr 1 <;> omega)

theorem isDigitCh_digitChar (m : Nat) (h : m < 10) : isDigitCh (Nat.digitChar m) = true := by
  revert h
  revert m
  decide

theorem pad2_two_digits (n : Nat) (h : n ≤ 99) :
    (pad2 n).data.length = 2 ∧ ∀ c ∈ (pad2 n).data, isDigitCh c = true := by
  unfold pad2
  by_cases hn : n < 10
  · simp only [hn, if_true]
    rw [String.data_append, toString_nat_eq, repr_data_one n hn,
      show ("0" : String).data = ['0'] from rfl]
    refine ⟨rfl, ?_⟩
    intro c hc
    simp only [List.cons_append, List.nil_append, List.mem_cons, List.not_mem_nil,
      or_false] at hc
    rcases hc with rfl | rfl
    · decide
    · exact isDigitCh_digitChar n hn
  · simp only [hn, if_false]
    rw [toString_nat_eq, repr_data_two n (by omega) (by omega)]
    refine ⟨rfl, ?_⟩
    intro c hc
    simp only [List.mem_cons, List.not_mem_nil, or_false] at hc
    rcases hc with rfl | rfl
    · exact isDigitCh_digitChar _ (by omega)
    · exact isDigitCh_digitChar _ (by omega)

theorem formatUtcDate_digits (y m d : Nat) (hy1 : 1000 ≤ y) (hy2 : y ≤ 9999)
    (hm : m ≤ 99) (hd : d ≤ 99) :
    (formatUtcDate y m d).data.length = 8 ∧
      ∀ c ∈ (formatUtcDate y m d).data, isDigitCh c = true := by
  unfold formatUtcDate
  rw [String.data_append, String.data_append, toString_nat_eq]
  obtain ⟨hml, hmd⟩ := pad2_two_digits m hm
  obtain ⟨hdl, hdd⟩ := pad2_two_digits d hd
  have hy : (Nat.repr y).data =
      [Nat.digitChar (y / 1000), Nat.digitChar (y / 100 % 10),
       Nat.digitChar (y / 10 % 10), Nat.digitChar (y % 10)] :=
    repr_data_four y hy1 (by omega)
  constructor
  · rw [List.length_append, List.length_append, hy, hml, hdl]
    rfl
  · intro c hc
    simp only [List.mem_append] at hc
    rcases hc with (hc | hc) | hc
    · rw [hy] at hc
      simp only [List.mem_cons, List.not_mem_nil, or_false] at hc
      rcases hc with rfl | rfl | rfl | rfl <;> exact isDigitCh_digitChar _ (by omega)
    · exact hmd c hc
    · exact hdd c hc

theorem isLowerHex_hexDigitChar (m : Nat) (h : m < 16) : isLowerHex (hexDigitChar m) = true := by
  revert h
  revert m
  decide

theorem isHexCI_of_isLowerHex (c : Char) (h : isLowerHex c = true) : isHexCI c = true := by
  unfold isLowerHex at h
  unfold isHexCI
  simp only [Bool.or_eq_true] at h ⊢
  tauto

theorem bytesToHexChars_spec (bs : List Nat) :
    (bytesToHexChars bs).length = 2 * bs.length ∧
      ∀ c ∈ bytesToHexChars bs, isLowerHex c = true := by
  induction bs with
  | nil => exact ⟨rfl, by intro c hc; cases hc⟩
  | cons b t ih =>
    obtain ⟨ihl, ihm⟩ := ih
    constructor
    · show (_ :: _ :: bytesToHexChars t).length = _
      simp only [List.length_cons, ihl, List.length_cons]
      ring
    · intro c hc
      rcases hc with _ | ⟨_, hc⟩
      · exact isLowerHex_hexDigitChar _ (Nat.mod_lt _ (by omega))
      · rcases hc with _ | ⟨_, hc⟩
        · exact isLowerHex_hexDigitChar _ (Nat.mod_lt _ (by omega))
        · exact ihm c hc

theorem generateWorksheetId_data (y m d : Nat) (bs : List Nat) :
    (generateWorksheetId y m d bs).data =
      'w' :: 's' :: '_' ::
        ((formatUtcDate y m d).data ++ '_' :: (bytesToHexChars bs).take 6) := by
  unfold generateWorksheetId
  rw [String.data_append, String.data_append, String.data_append]
  rw [show ("ws_" : String).data = ['w', 's', '_'] from rfl,
    show ("_" : String).data = ['_'] from rfl,
    show (String.mk ((bytesToHexChars bs).take 6)).data = (bytesToHexChars bs).take 6 from rfl]
  simp [List.append_assoc]

/-- Components of the two shape checkers on a decomposed character list. -/
theorem shape_components (c1 c2 : Char) (ds hs cs : List Char)
    (hds : ds.length = 8) (hhs : hs.length = 6)
    (hcs : cs = c1 :: c2 :: '_' :: (ds ++ '_' :: hs)) :
    cs.length = 18 ∧ cs.take 2 = [c1, c2] ∧ (cs.drop 2).take 1 = ['_'] ∧
      cs.take 3 = [c1, c2, '_'] ∧
      (cs.drop 3).take 8 = ds ∧ (cs.drop 11).take 1 = ['_'] ∧ cs.drop 12 = hs := by
  subst hcs
  have h3 : (c1 :: c2 :: '_' :: (ds ++ '_' :: hs)).drop 3 = ds ++ '_' :: hs := rfl
  have h11 : (c1 :: c2 :: '_' :: (ds ++ '_' :: hs)).drop 11 = '_' :: hs := by
    have e : ((c1 :: c2 :: '_' :: (ds ++ '_' :: hs)).drop 3).drop 8 =
        (c1 :: c2 :: '_' :: (ds ++ '_' :: hs)).drop 11 := by
      rw [List.drop_drop]
    rw [← e, h3, List.drop_left' hds]
  refine ⟨?_, rfl, rfl, rfl, ?_, ?_, ?_⟩
  · simp [hds, hhs, List.length_append]
  · rw [h3, List.take_left' hds]
  · rw [h11]
    rfl
  · have e2 : ((c1 :: c2 :: '_' :: (ds ++ '_' :: hs)).drop 11).drop 1 =
        (c1 :: c2 :: '_' :: (ds ++ '_' :: hs)).drop 12 := by
      rw [List.drop_drop]
    rw [← e2, h11]
    rfl

theorem ws_decompose (cs : List Char)
    (hlen : cs.length = 18)
    (hws : (cs.take 2).map Char.toLower = ['w', 's'])
    (hu1 : (cs.drop 2).take 1 = ['_'])
    (hdig : ∀ c ∈ (cs.drop 3).take 8, isDigitCh c = true)
    (hu2 : (cs.drop 11).take 1 = ['_'])
    (hhex : ∀ c ∈ cs.drop 12, isHexCI c = true) :
    ∃ c1 c2 ds hs, cs = c1 :: c2 :: '_' :: (ds ++ '_' :: hs) ∧
      c1.toLower = 'w' ∧ c2.toLower = 's' ∧ ds.length = 8 ∧
      (∀ c ∈ ds, isDigitCh c = true) ∧ hs.length = 6 ∧ (∀ c ∈ hs, isHexCI c = true) := by
  rcases cs with _ | ⟨ca, _ | ⟨cb, _ | ⟨cc, rest⟩⟩⟩
  · simp at hlen
  · simp at hlen
  · simp at hlen
  · have hrest : rest.length = 15 := by
      simp only [List.length_cons] at hlen
      omega
    simp only [List.take_succ_cons, List.take_zero, List.map_cons, List.map_nil,
      List.cons.injEq, and_true] at hws
    obtain ⟨hca, hcb⟩ := hws
    simp only [List.drop_succ_cons, List.drop_zero, List.take_succ_cons, List.take_zero,
      List.cons.injEq, and_true] at hu1
    subst hu1
    rw [show (ca :: cb :: '_' :: rest).drop 11 = rest.drop 8 from rfl] at hu2
    rcases e8 : rest.drop 8 with _ | ⟨u, tl⟩
    · rw [e8] at hu2
      simp at hu2
    · rw [e8] at hu2
      simp only [List.take_succ_cons, List.take_zero, List.cons.injEq, and_true] at hu2
      subst hu2
      have hsplit : rest.take 8 ++ '_' :: tl = rest := by
        rw [← e8]
        exact List.take_append_drop 8 rest
      have hdsl : (rest.take 8).length = 8 := by
        rw [List.length_take]
        omega
      have htl : tl.length = 6 := by
        have : (rest.drop 8).length = 7 := by
          rw [List.length_drop]
          omega
        rw [e8] at this
        simp only [List.length_cons] at this
        omega
      refine ⟨ca, cb, rest.take 8, tl, ?_, hca, hcb, hdsl, ?_, htl, ?_⟩
      · rw [hsplit]
      · intro c hc
        apply hdig
        rw [show ((ca :: cb :: '_' :: rest).drop 3) = rest from rfl]
        exact hc
      · intro c hc
        apply hhex
        rw [show ((ca :: cb :: '_' :: rest).drop 12) = rest.drop 9 from rfl]
        have e9 : (rest.drop 8).drop 1 = rest.drop 9 := by
          rw [List.drop_drop]
        rw [← e9, e8]
        exact hc

/-- C7 counterexample. -/
theorem c7_counterexample :
    wsShapeStrict (generateWorksheetId 500 1 1 [171, 18, 205, 239]) = false ∧
    isWorksheetId "ws_20260228_ABCDEF" = true ∧
    wsShapeStrict "ws_20260228_ABCDEF" = false := by
  decide

/-- C7 amended. -/
theorem c7_amended :
    (∀ (y m d : Nat) (bytes : List Nat), 1000 ≤ y → y ≤ 9999 → m ≤ 99 → d ≤ 99 →
      bytes.length = 4 →
      wsShapeStrict (generateWorksheetId y m d bytes) = true ∧
      isWorksheetId (generateWorksheetId y m d bytes) = true) ∧
    (∀ s : String, isWorksheetId s = true ↔ WsShapeCI s) := by
  constructor
  · intro y m d bytes hy1 hy2 hm hd hb
    have hdata := generateWorksheetId_data y m d bytes
    obtain ⟨hdl, hdd⟩ := formatUtcDate_digits y m d hy1 hy2 hm hd
    obtain ⟨hhl, hhm⟩ := bytesToHexChars_spec bytes
    have hh6l : ((bytesToHexChars bytes).take 6).length = 6 := by
      rw [List.length_take, hhl, hb]
      decide
    have hh6m : ∀ c ∈ (bytesToHexChars bytes).take 6, isLowerHex c = true :=
      fun c hc => hhm c (List.mem_of_mem_take hc)
    obtain ⟨hlen, ht2, hd2, ht3, ht8, h11, h12⟩ :=
      shape_components 'w' 's' (formatUtcDate y m d).data ((bytesToHexChars bytes).take 6)
        (generateWorksheetId y m d bytes).data hdl hh6l hdata
    constructor
    · simp only [wsShapeStrict, hlen, ht3, ht8, h11, h12, Bool.and_eq_true, beq_iff_eq,
        decide_eq_true_eq, List.all_eq_true]
      and_intros
      all_goals first
        | trivial
        | exact hdd
        | exact hh6m
    · simp only [isWorksheetId, hlen, ht2, hd2, ht8, h11, h12, Bool.and_eq_true, beq_iff_eq,
        decide_eq_true_eq, List.all_eq_true]
      and_intros
      all_goals first
        | trivial
        | decide
        | exact hdd
        | exact fun c hc => isHexCI_of_isLowerHex c (hh6m c hc)
  · intro s
    constructor
    · intro h
      simp only [isWorksheetId, Bool.and_eq_true, beq_iff_eq, decide_eq_true_eq,
        List.all_eq_true] at h
      obtain ⟨⟨⟨⟨⟨hlen, hws⟩, hu1⟩, hdig⟩, hu2⟩, hhex⟩ := h
      exact ws_decompose s.data hlen hws hu1 hdig hu2 hhex
    · intro h
      obtain ⟨c1, c2, ds, hs, hcs, h1, h2, hdsl, hdsd, hhsl, hhsx⟩ := h
      obtain ⟨hlen, ht2, hd2, ht3, ht8, h11, h12⟩ :=
        shape_components c1 c2 ds hs s.data hdsl hhsl hcs
      simp only [isWorksheetId, hlen, ht2, hd2, ht8, h11, h12, Bool.and_eq_true, beq_iff_eq,
        decide_eq_true_eq, List.all_eq_true, List.map_cons, List.map_nil, h1, h2]
      and_intros
      all_goals first
        | trivial
        | exact hdsd
        | exact hhsx

/-- C7 witness. -/
theorem c7_witness :
    wsShapeStrict (generateWorksheetId 2026 2 28 [171, 18, 205, 239]) = true ∧
    isWorksheetId "ws_20260228_abcdef" = true := by
  constructor
  · exact (c7_amended.1 2026 2 28 [171, 18, 205, 239] (by norm_num) (by norm_num)
      (by norm_num) (by norm_num) (by decide)).1
  · exact (c7_amended.2 "ws_20260228_abcdef").mpr
      ⟨'w', 's', ['2', '0', '2', '6', '0', '2', '2', '8'], ['a', 'b', 'c', 'd', 'e', 'f'],
        by decide, by decide, by decide, by decide, by decide, by decide, by decide⟩

/-! ### C9: `readJson` fallback semantics -/

/-- C9: `readJson` returns the fallback exactly for a missing file
(ENOENT); an unreadable file or unparsable content propagates as an
exception, and a well-formed file returns its parsed value. -/
theorem c9_readJson_fallback_only_for_enoent {α : Type} (fs : String → FileRead α)
    (p : String) (fb : α) :
    (fs p = .enoent → readJson fs p fb = .ok fb) ∧
    (∀ msg, fs p = .ioError msg → readJson fs p fb = .error msg) ∧
    (∀ err, fs p = .content (.malformed err) → readJson fs p fb = .error err) ∧
    (∀ v, fs p = .content (.wellFormed v) → readJson fs p fb = .ok v) := by
  refine ⟨fun h => ?_, fun msg h => ?_, fun err h => ?_, fun v h => ?_⟩ <;>
    (unfold readJson; rw [h])

/-- C9 witness. -/
theorem c9_witness :
    readJson fsMissing "queue/pending.json" 7 = .ok 7 ∧
    readJson fsDenied "queue/pending.json" 7 = .error "EACCES: permission denied" ∧
    readJson fsMalformed "queue/pending.json" 7 = .error "Unexpected end of JSON input" ∧
    readJson fsGood "queue/pending.json" 7 = .ok 3 :=
  ⟨(c9_readJson_fallback_only_for_enoent fsMissing "queue/pending.json" 7).1 rfl,
   (c9_readJson_fallback_only_for_enoent fsDenied "queue/pending.json" 7).2.1 _ rfl,
   (c9_readJson_fallback_only_for_enoent fsMalformed "queue/pending.json" 7).2.2.1 _ rfl,
   (c9_readJson_fallback_only_for_enoent fsGood "queue/pending.json" 7).2.2.2 _ rfl⟩

/-! ### C5: `getWorksheetStatus` precedence -/

/-- C5 counterexample: a metadata record whose `state` is the non-empty
string `" "` is trimmed to `""`, is falsy, and loses to the pending-list
state — the claim's "non-empty state string wins" is false as stated. -/
theorem c5_counterexample :
    getWorksheetStatus
      [("ws_20260228_feed01", { worksheet_id := "ws_20260228_feed01", state := " " })]
      [{ worksheet_id := "ws_20260228_feed01", state := "failed", attempts := some 1 }]
      "ws_20260228_feed01" =
      some { worksheet_id := "ws_20260228_feed01", state := "failed", uploaded_at := none,
             integrated_at := none, last_error := none } ∧
    (" " : String) ≠ "" ∧ ("failed" : String) ≠ " " := by
  decide

/-- C5 amended: `getWorksheetStatus` returns `null` when the metadata
document is absent; when the metadata `state` is non-empty *after
trimming*, the returned state is that trimmed metadata state, whatever the
pending-list entry says. -/
theorem c5_amended_status_prefers_metadata :
    (∀ (mstore : MetaStore) (jobs : List PendingJob) (w : String),
      lookupMeta mstore w = none → getWorksheetStatus mstore jobs w = none) ∧
    (∀ (mstore : MetaStore) (jobs : List PendingJob) (w : String) (m : WorksheetMetadata),
      lookupMeta mstore w = some m → jsTrim m.state ≠ "" →
      ∃ sv, getWorksheetStatus mstore jobs w = some sv ∧ sv.state = jsTrim m.state) := by
  constructor
  · intro mstore jobs w h
    unfold getWorksheetStatus
    rw [h]
  · intro mstore jobs w m h hs
    unfold getWorksheetStatus
    rw [h]
    refine ⟨_, rfl, ?_⟩
    unfold statusState
    rw [if_pos hs]

/-- C5 witness. -/
theorem c5_witness :
    getWorksheetStatus [] [] "ws_20260228_feed01" = none ∧
    ∃ sv, getWorksheetStatus
      [("ws_20260228_feed01", { worksheet_id := "ws_20260228_feed01", state := "queued" })]
      [{ worksheet_id := "ws_20260228_feed01", state := "failed", attempts := some 1 }]
      "ws_20260228_feed01" = some sv ∧ sv.state = jsTrim "queued" :=
  ⟨c5_amended_status_prefers_metadata.1 [] [] "ws_20260228_feed01" rfl,
   c5_amended_status_prefers_metadata.2
     [("ws_20260228_feed01", { worksheet_id := "ws_20260228_feed01", state := "queued" })]
     [{ worksheet_id := "ws_20260228_feed01", state := "failed", attempts := some 1 }]
     "ws_20260228_feed01" _ rfl (by decide)⟩

/-! ### C3: `started_at` / `attempts` bookkeeping -/

theorem updateQueueJob_keeps_inv (w st : String) (now : TimeVal) (j : PendingJob)
    (h : (!jsTruthy j.started_at || (j.state == "processing")) = true) :
    (!jsTruthy (updateQueueJob w st now j).started_at ||
      ((updateQueueJob w st now j).state == "processing")) = true := by
  unfold updateQueueJob
  split
  · exact h
  · by_cases hst : (st == "processing") = true
    · simp only [hst]
      split <;> simp [hst, apply_ite]
    · have hst' : (st == "processing") = false := by
        revert hst
        cases st == "processing" <;> simp
      simp only [hst', Bool.false_eq_true, if_false, Bool.not_false, Bool.true_and]
      by_cases htr : jsTruthy j.started_at = true
      · simp only [htr, if_true]
        split <;> simp [jsTruthy, apply_ite]
      · have htr' : jsTruthy j.started_at = false := by
          revert htr
          cases jsTruthy j.started_at <;> simp
        simp only [htr', Bool.false_eq_true, if_false]
        split <;> simp [htr', apply_ite]

/-- C3 counterexample: the enqueue upsert applied to an entry currently in
state `processing` resets state and attempts but retains the stale
`started_at` via the object spread, so the "started_at only while
processing" invariant is not preserved by every pending-list mutation. -/
theorem c3_counterexample :
    startedOnlyWhileProcessing
      [{ worksheet_id := "ws_20260228_ab12cd", state := "processing", attempts := some 2,
         queued_at := some (.stamp 100), started_at := some (.stamp 5000) }] = true ∧
    enqueueQueueUpdate "ws_20260228_ab12cd" (.stamp 9000)
      [{ worksheet_id := "ws_20260228_ab12cd", state := "processing", attempts := some 2,
         queued_at := some (.stamp 100), started_at := some (.stamp 5000) }] =
      [{ worksheet_id := "ws_20260228_ab12cd", state := "queued", attempts := some 0,
         queued_at := some (.stamp 9000), started_at := some (.stamp 5000) }] ∧
    startedOnlyWhileProcessing
      (enqueueQueueUpdate "ws_20260228_ab12cd" (.stamp 9000)
        [{ worksheet_id := "ws_20260228_ab12cd", state := "processing", attempts := some 2,
           queued_at := some (.stamp 100), started_at := some (.stamp 5000) }]) = false := by
  decide

/-- C3 amended: `updateQueueState` preserves the `started_at` invariant
for every target state; `attempts` is incremented exactly on a transition
into `processing` and left unchanged by every other transition.  The
enqueue upsert, by contrast, does not preserve the invariant (see the
counterexample). -/
theorem c3_amended_bookkeeping :
    (∀ (jobs : List PendingJob) (w st : String) (now : TimeVal),
      startedOnlyWhileProcessing jobs = true →
      startedOnlyWhileProcessing (updateQueueState jobs w st now) = true) ∧
    (∀ (w st : String) (now : TimeVal) (job : PendingJob), st ≠ "processing" →
      (updateQueueJob w st now job).attempts.getD 0 = job.attempts.getD 0) ∧
    (∀ (w : String) (now : TimeVal) (job : PendingJob), job.worksheet_id = w →
      (updateQueueJob w "processing" now job).attempts = some (job.attempts.getD 0 + 1)) := by
  refine ⟨?_, ?_, ?_⟩
  · intro jobs w st now hinv
    unfold updateQueueState startedOnlyWhileProcessing
    unfold startedOnlyWhileProcessing at hinv
    rw [List.all_eq_true] at hinv
    split
    · rw [List.all_eq_true]
      intro job hj
      rw [List.mem_map] at hj
      obtain ⟨j0, hj0, rfl⟩ := hj
      exact updateQueueJob_keeps_inv w st now j0 (hinv j0 hj0)
    · rw [List.all_eq_true]
      intro job hj
      rw [List.mem_append] at hj
      rcases hj with hj | hj
      · rw [List.mem_map] at hj
        obtain ⟨j0, hj0, rfl⟩ := hj
        exact updateQueueJob_keeps_inv w st now j0 (hinv j0 hj0)
      · rw [List.mem_singleton] at hj
        subst hj
        by_cases hst : (st == "processing") = true
        · simp [hst]
        · have hst' : (st == "processing") = false := by
            revert hst
            cases st == "processing" <;> simp
          simp [hst', jsTruthy]
  · intro w st now job hne
    have hst' : (st == "processing") = false := by
      cases e : st == "processing"
      · rfl
      · exact absurd (by simpa using e) hne
    unfold updateQueueJob
    split
    · rfl
    · simp only [hst', Bool.false_eq_true, if_false, Bool.not_false, Bool.true_and]
      split <;> (split <;> simp [apply_ite])
  · intro w now job hid
    unfold updateQueueJob
    rw [if_neg (by simpa using hid)]
    simp only [beq_self_eq_true, if_true, Bool.not_true, Bool.false_and, Bool.false_eq_true,
      if_false]
    split <;>
      (simp [apply_ite]
       cases job.attempts <;> simp [Option.getD])

/-- C3 witness. -/
theorem c3_witness :
    startedOnlyWhileProcessing
      (updateQueueState
        [{ worksheet_id := "ws_20260228_ab12cd", state := "processing", attempts := some 2,
           queued_at := some (.stamp 100), started_at := some (.stamp 5000) }]
        "ws_20260228_ab12cd" "failed" (.stamp 9000)) = true ∧
    (updateQueueJob "ws_20260228_ab12cd" "failed" (.stamp 9000)
      { worksheet_id := "ws_20260228_ab12cd", state := "processing", attempts := some 2,
        queued_at := some (.stamp 100), started_at := some (.stamp 5000) }).attempts.getD 0 =
      (some (2 : Int)).getD 0 ∧
    (updateQueueJob "ws_20260228_ab12cd" "processing" (.stamp 9000)
      { worksheet_id := "ws_20260228_ab12cd", state := "queued", attempts := some 2,
        queued_at := some (.stamp 100), started_at := none }).attempts = some (2 + 1) :=
  ⟨c3_amended_bookkeeping.1 _ "ws_20260228_ab12cd" "failed" (.stamp 9000) (by decide),
   c3_amended_bookkeeping.2.1 "ws_20260228_ab12cd" "failed" (.stamp 9000) _ (by decide),
   c3_amended_bookkeeping.2.2 "ws_20260228_ab12cd" (.stamp 9000) _ rfl⟩

/-! ### C4: at most one pending-list entry per worksheet ID -/

theorem countP_enqueue_ne (w : String) (t : TimeVal) (jobs : List PendingJob)
    (v : String) (hvw : v ≠ w) :
    (enqueueQueueUpdate w t jobs).countP (fun j => j.worksheet_id == v) =
      jobs.countP (fun j => j.worksheet_id == v) := by
  induction jobs with
  | nil =>
    simp [enqueueQueueUpdate, List.countP_cons, List.countP_nil, Ne.symm hvw]
  | cons j rest ih =>
    unfold enqueueQueueUpdate
    by_cases hj : (j.worksheet_id == w) = true
    · simp only [hj, if_true]
      have hjw : j.worksheet_id = w := by simpa using hj
      simp [List.countP_cons, hjw, Ne.symm hvw]
    · have hj' : (j.worksheet_id == w) = false := by
        revert hj
        cases j.worksheet_id == w <;> simp
      simp only [hj', Bool.false_eq_true, if_false]
      simp [List.countP_cons, ih]

theorem countP_enqueue_eq (w : String) (t : TimeVal) (jobs : List PendingJob) :
    (enqueueQueueUpdate w t jobs).countP (fun j => j.worksheet_id == w) =
      if jobs.countP (fun j => j.worksheet_id == w) = 0 then 1
      else jobs.countP (fun j => j.worksheet_id == w) := by
  induction jobs with
  | nil =>
    simp [enqueueQueueUpdate, List.countP_cons, List.countP_nil]
  | cons j rest ih =>
    unfold enqueueQueueUpdate
    by_cases hj : (j.worksheet_id == w) = true
    · simp only [hj, if_true]
      simp [List.countP_cons, hj]
    · have hj' : (j.worksheet_id == w) = false := by
        revert hj
        cases j.worksheet_id == w <;> simp
      simp only [hj', Bool.false_eq_true, if_false]
      simp [List.countP_cons, hj', ih]

theorem unique_enqueue (w : String) (t : TimeVal) (jobs : List PendingJob)
    (h : uniqueWorksheetIds jobs) : uniqueWorksheetIds (enqueueQueueUpdate w t jobs) := by
  intro v
  by_cases hv : v = w
  · subst hv
    rw [countP_enqueue_eq]
    split
    · omega
    · exact h v
  · rw [countP_enqueue_ne w t jobs v hv]
    exact h v

theorem unique_tail (j : PendingJob) (rest : List PendingJob)
    (h : uniqueWorksheetIds (j :: rest)) : uniqueWorksheetIds rest := by
  intro v
  have := h v
  rw [List.countP_cons] at this
  omega

theorem length_enqueue_of_mem (w : String) (t : TimeVal) (jobs : List PendingJob)
    (h : ∃ j ∈ jobs, j.worksheet_id = w) :
    (enqueueQueueUpdate w t jobs).length = jobs.length := by
  induction jobs with
  | nil => obtain ⟨j, hj, _⟩ := h; cases hj
  | cons j rest ih =>
    unfold enqueueQueueUpdate
    by_cases hj : (j.worksheet_id == w) = true
    · simp only [hj, if_true, List.length_cons]
    · have hj' : (j.worksheet_id == w) = false := by
        revert hj
        cases j.worksheet_id == w <;> simp
      simp only [hj', Bool.false_eq_true, if_false, List.length_cons]
      have hrest : ∃ j0 ∈ rest, j0.worksheet_id = w := by
        obtain ⟨j0, hj0, hid⟩ := h
        rcases hj0 with _ | ⟨_, hj0⟩
        · exact absurd hid (by simpa using hj')
        · exact ⟨j0, hj0, hid⟩
      rw [ih hrest]

theorem enqueue_entry_fields (w : String) (t : TimeVal) (jobs : List PendingJob)
    (huniq : uniqueWorksheetIds jobs) :
    ∀ j ∈ enqueueQueueUpdate w t jobs, j.worksheet_id = w →
      j.state = "queued" ∧ j.attempts = some 0 := by
  induction jobs with
  | nil =>
    intro j hj hid
    rcases hj with _ | ⟨_, hj⟩
    · exact ⟨rfl, rfl⟩
    · cases hj
  | cons k rest ih =>
    intro j hj hid
    unfold enqueueQueueUpdate at hj
    by_cases hk : (k.worksheet_id == w) = true
    · simp only [hk, if_true] at hj
      rcases hj with _ | ⟨_, hj⟩
      · exact ⟨rfl, rfl⟩
      · exfalso
        have hkw : k.worksheet_id = w := by simpa using hk
        have h2 : 2 ≤ (k :: rest).countP (fun j0 => j0.worksheet_id == w) := by
          rw [List.countP_cons]
          have hpos : 0 < rest.countP (fun j0 => j0.worksheet_id == w) :=
            List.countP_pos.mpr ⟨j, hj, by simpa using hid⟩
          simp only [hk, if_true]
          omega
        have := huniq w
        omega
    · have hk' : (k.worksheet_id == w) = false := by
        revert hk
        cases k.worksheet_id == w <;> simp
      simp only [hk', Bool.false_eq_true, if_false] at hj
      rcases hj with _ | ⟨_, hj⟩
      · exact absurd hid (by simpa using hk')
      · exact ih (unique_tail k rest huniq) j hj hid

/-- C4: starting from the empty pending list, any sequence of enqueue
upserts leaves at most one entry per worksheet ID; re-enqueuing an ID that
already has an entry keeps the list length and leaves that ID's entry in
state `queued` with 0 attempts. -/
theorem c4_enqueue_upsert_no_duplicates :
    (∀ calls : List (String × TimeVal),
      uniqueWorksheetIds (calls.foldl (fun jobs c => enqueueQueueUpdate c.1 c.2 jobs) [])) ∧
    (∀ (jobs : List PendingJob) (w : String) (t : TimeVal),
      uniqueWorksheetIds jobs → (∃ j ∈ jobs, j.worksheet_id = w) →
      (enqueueQueueUpdate w t jobs).length = jobs.length ∧
      ∀ j ∈ enqueueQueueUpdate w t jobs, j.worksheet_id = w →
        j.state = "queued" ∧ j.attempts = some 0) := by
  constructor
  · have main : ∀ (calls : List (String × TimeVal)) (init : List PendingJob),
        uniqueWorksheetIds init →
        uniqueWorksheetIds (calls.foldl (fun jobs c => enqueueQueueUpdate c.1 c.2 jobs) init) := by
      intro calls
      induction calls with
      | nil => intro init h; exact h
      | cons c rest ih =>
        intro init h
        rw [List.foldl_cons]
        exact ih _ (unique_enqueue c.1 c.2 init h)
    intro calls
    exact main calls [] (fun v => by simp [List.countP_nil])
  · intro jobs w t huniq hmem
    exact ⟨length_enqueue_of_mem w t jobs hmem, enqueue_entry_fields w t jobs huniq⟩

/-- C4 witness. -/
theorem c4_witness :
    uniqueWorksheetIds
      (List.foldl (fun jobs c => enqueueQueueUpdate c.1 c.2 jobs) []
        [("ws_20260228_c0ffee", TimeVal.stamp 1), ("ws_20260228_c0ffee", TimeVal.stamp 2)]) ∧
    (enqueueQueueUpdate "ws_20260228_c0ffee" (TimeVal.stamp 2)
      [{ worksheet_id := "ws_20260228_c0ffee", state := "queued", attempts := some 0,
         queued_at := some (.stamp 1), started_at := none }]).length =
      [({ worksheet_id := "ws_20260228_c0ffee", state := "queued", attempts := some 0,
          queued_at := some (.stamp 1), started_at := none } : PendingJob)].length ∧
    ∀ j ∈ enqueueQueueUpdate "ws_20260228_c0ffee" (TimeVal.stamp 2)
      [{ worksheet_id := "ws_20260228_c0ffee", state := "queued", attempts := some 0,
         queued_at := some (.stamp 1), started_at := none }],
      j.worksheet_id = "ws_20260228_c0ffee" → j.state = "queued" ∧ j.attempts = some 0 := by
  refine ⟨c4_enqueue_upsert_no_duplicates.1 _, ?_, ?_⟩
  · exact (c4_enqueue_upsert_no_duplicates.2 _ "ws_20260228_c0ffee" (TimeVal.stamp 2)
      (fun v => by simp [List.countP_cons, List.countP_nil]; split <;> simp)
      ⟨_, List.mem_singleton_self _, rfl⟩).1
  · exact (c4_enqueue_upsert_no_duplicates.2 _ "ws_20260228_c0ffee" (TimeVal.stamp 2)
      (fun v => by simp [List.countP_cons, List.countP_nil]; split <;> simp)
      ⟨_, List.mem_singleton_self _, rfl⟩).2

/-! ### C2 / C10: per-job failure handling lemmas -/

theorem lookupMeta_setMeta_same (ms : MetaStore) (w : String) (v m : WorksheetMetadata)
    (h : lookupMeta ms w = some m) : lookupMeta (setMeta ms w v) w = some v := by
  induction ms with
  | nil => simp [lookupMeta] at h
  | cons e rest ih =>
    by_cases he : (e.1 == w) = true
    · simp only [setMeta, lookupMeta, he, if_true]
    · have he' : (e.1 == w) = false := by
        revert he
        cases e.1 == w <;> simp
      simp only [setMeta, lookupMeta, he', Bool.false_eq_true, if_false] at h ⊢
      exact ih h

theorem setMeta_setMeta (ms : MetaStore) (w : String) (v1 v2 : WorksheetMetadata) :
    setMeta (setMeta ms w v1) w v2 = setMeta ms w v2 := by
  induction ms with
  | nil => rfl
  | cons e rest ih =>
    by_cases he : (e.1 == w) = true
    · simp only [setMeta, he, if_true, ih]
    · have he' : (e.1 == w) = false := by
        revert he
        cases e.1 == w <;> simp
      simp only [setMeta, he', Bool.false_eq_true, if_false, ih]

theorem updateQueueJob_keeps_id (w st : String) (now : TimeVal) (j : PendingJob) :
    (updateQueueJob w st now j).worksheet_id = j.worksheet_id := by
  unfold updateQueueJob
  split
  · rfl
  · dsimp only
    split <;> (split <;> (split <;> rfl))


theorem updateQueueJob_claim (w : String) (now : TimeVal) (j : PendingJob)
    (hid : j.worksheet_id = w) :
    updateQueueJob w "processing" now j =
      if jsTruthy j.queued_at then
        { j with
            state := "processing"
            attempts := some (j.attempts.getD 0 + 1)
            started_at := some now }
      else
        { j with
            state := "processing"
            attempts := some (j.attempts.getD 0 + 1)
            started_at := some now
            queued_at := some now } := by
  unfold updateQueueJob
  rw [if_neg (by simpa using hid)]
  simp only [beq_self_eq_true, if_true, Bool.not_true, Bool.false_and, Bool.false_eq_true,
    if_false]
  cases ha : j.attempts with
  | some n => split <;> simp [ha]
  | none => split <;> simp [ha]

theorem updateQueueJob_fail (w : String) (now : TimeVal) (r : PendingJob)
    (hid : r.worksheet_id = w) (hs : r.started_at = some now)
    (hnow : jsTruthy (some now) = true) :
    updateQueueJob w "failed" now r =
      if jsTruthy r.queued_at then
        { r with
            state := "failed"
            attempts := some (r.attempts.getD 0)
            started_at := none }
      else
        { r with
            state := "failed"
            attempts := some (r.attempts.getD 0)
            started_at := none
            queued_at := some now } := by
  unfold updateQueueJob
  rw [if_neg (by simpa using hid)]
  simp only [show ("failed" == "processing") = false from rfl, Bool.false_eq_true, if_false,
    Bool.not_false, Bool.true_and]
  simp only [hs, hnow, if_true]

theorem updateQueueJob_claim_fail (w : String) (now : TimeVal) (j : PendingJob)
    (hnow : jsTruthy (some now) = true) :
    updateQueueJob w "failed" now (updateQueueJob w "processing" now j) =
      if j.worksheet_id = w then
        { j with
            state := "failed"
            attempts := some (j.attempts.getD 0 + 1)
            started_at := none
            queued_at := if jsTruthy j.queued_at then j.queued_at else some now }
      else j := by
  by_cases hid : j.worksheet_id = w
  · rw [if_pos hid, updateQueueJob_claim w now j hid]
    by_cases hq : jsTruthy j.queued_at = true
    · rw [if_pos hq, if_pos hq]
      rw [updateQueueJob_fail w now _ (by simpa using hid) rfl hnow]
      rw [if_pos (by simpa using hq)]
      rfl
    · have hq' : jsTruthy j.queued_at = false := by
        revert hq
        cases jsTruthy j.queued_at <;> simp
      rw [if_neg (by simp [hq']), if_neg (by simp [hq'])]
      rw [updateQueueJob_fail w now _ (by simpa using hid) rfl hnow]
      rw [if_pos (by simpa using hnow)]
      rfl
  · rw [if_neg hid]
    have h1 : updateQueueJob w "processing" now j = j := by
      unfold updateQueueJob
      rw [if_pos (by simpa using hid)]
    rw [h1]
    unfold updateQueueJob
    rw [if_pos (by simpa using hid)]

theorem updateQueueState_claim_fail (jobs : List PendingJob) (w : String) (now : TimeVal)
    (hnow : jsTruthy (some now) = true)
    (hmem : ∃ j ∈ jobs, j.worksheet_id = w) :
    updateQueueState (updateQueueState jobs w "processing" now) w "failed" now =
      jobs.map (fun j =>
        if j.worksheet_id = w then
          { j with
              state := "failed"
              attempts := some (j.attempts.getD 0 + 1)
              started_at := none
              queued_at := if jsTruthy j.queued_at then j.queued_at else some now }
        else j) := by
  have hany : jobs.any (fun job => job.worksheet_id == w) = true := by
    rw [List.any_eq_true]
    obtain ⟨j, hj, hid⟩ := hmem
    exact ⟨j, hj, by simpa using hid⟩
  have hany2 : (jobs.map (updateQueueJob w "processing" now)).any
      (fun job => job.worksheet_id == w) = true := by
    rw [List.any_eq_true]
    obtain ⟨j, hj, hid⟩ := hmem
    refine ⟨updateQueueJob w "processing" now j, List.mem_map_of_mem _ hj, ?_⟩
    rw [updateQueueJob_keeps_id]
    simpa using hid
  unfold updateQueueState
  dsimp only
  rw [if_pos hany, if_pos hany2, List.map_map]
  refine List.map_congr_left ?_
  intro j _
  exact updateQueueJob_claim_fail w now j hnow

/-- C2: when the metadata document exists and any post-claim pipeline step
throws, the failure is contained at the per-job boundary: the batch
continues with the remaining IDs (prepending only a failed summary row),
the metadata record ends in state `failed` with `last_error` set to the
error summary, and the pending-list entry for the worksheet ends in state
`failed` with the attempts increment from claim time preserved and
`started_at` removed. -/
theorem c2_per_job_failure_contained
    (st : PipelineState) (w mode : String) (eff : String → StepEffects) (now : TimeVal)
    (rest : List String) (m : WorksheetMetadata) (e : String)
    (hnow : jsTruthy (some now) = true)
    (hmeta : lookupMeta st.mstore w = some m)
    (hfail : pipelineSteps mode (eff w) = .error e)
    (hentry : ∃ j ∈ st.jobs, j.worksheet_id = w) :
    runBatch st (w :: rest) mode eff now =
      (runBatch
        { mstore := setMeta st.mstore w { m with state := "failed", last_error := some e },
          jobs := st.jobs.map (fun j =>
            if j.worksheet_id = w then
              { j with
                  state := "failed"
                  attempts := some (j.attempts.getD 0 + 1)
                  started_at := none
                  queued_at := if jsTruthy j.queued_at then j.queued_at else some now }
            else j) }
        rest mode eff now).map
        (fun p => (p.1,
          { worksheet_id := w, state := "failed", error := some e } :: p.2)) ∧
    lookupMeta (setMeta st.mstore w { m with state := "failed", last_error := some e }) w =
      some { m with state := "failed", last_error := some e } := by
  have hm1 : updateMetadata st w { state := some "processing", last_error := some none } =
      .ok { st with
              mstore := setMeta st.mstore w
                { m with state := "processing", last_error := none } } := by
    unfold updateMetadata
    rw [hmeta]
    rfl
  have hproc : processWorksheet st w mode (eff w) now =
      ({ mstore := setMeta st.mstore w { m with state := "processing", last_error := none },
         jobs := updateQueueState st.jobs w "processing" now }, .error e) := by
    unfold processWorksheet
    rw [hmeta]
    dsimp only
    rw [hm1]
    dsimp only
    rw [hfail]
  have hlook2 : lookupMeta
      (setMeta st.mstore w { m with state := "processing", last_error := none }) w =
      some { m with state := "processing", last_error := none } :=
    lookupMeta_setMeta_same _ _ _ _ hmeta
  have hmf : markFailure
      { mstore := setMeta st.mstore w { m with state := "processing", last_error := none },
        jobs := updateQueueState st.jobs w "processing" now } w e now =
      .ok { mstore := setMeta st.mstore w { m with state := "failed", last_error := some e },
            jobs := st.jobs.map (fun j =>
              if j.worksheet_id = w then
                { j with
                    state := "failed"
                    attempts := some (j.attempts.getD 0 + 1)
                    started_at := none
                    queued_at := if jsTruthy j.queued_at then j.queued_at else some now }
              else j) } := by
    unfold markFailure updateMetadata
    dsimp only
    rw [hlook2]
    dsimp only
    rw [setMeta_setMeta, updateQueueState_claim_fail st.jobs w now hnow hentry]
    rfl
  refine ⟨?_, lookupMeta_setMeta_same _ _ _ _ hmeta⟩
  conv_lhs => rw [runBatch]
  rw [hproc]
  dsimp only
  rw [hmf]
  dsimp only
  cases hr : runBatch
      { mstore := setMeta st.mstore w { m with state := "failed", last_error := some e },
        jobs := st.jobs.map (fun j =>
          if j.worksheet_id = w then
            { j with
                state := "failed"
                attempts := some (j.attempts.getD 0 + 1)
                started_at := none
                queued_at := if jsTruthy j.queued_at then j.queued_at else some now }
          else j) } rest mode eff now with
  | ok p =>
    cases p
    simp [Except.map]
  | error e2 =>
    simp [Except.map]

/-- C2 witness. -/
theorem c2_witness :
    runBatch
      { mstore := [("ws_20260228_ab12cd", { worksheet_id := "ws_20260228_ab12cd" })],
        jobs := [{ worksheet_id := "ws_20260228_ab12cd", state := "queued", attempts := some 0,
                   queued_at := some (.stamp 50), started_at := none }] }
      ["ws_20260228_ab12cd"] "codex" sampleEffectsRun (.stamp 9000) =
    Except.ok
      ({ mstore := [("ws_20260228_ab12cd",
           { worksheet_id := "ws_20260228_ab12cd", state := "failed",
             last_error := some "npm install failed (1)\nETIMEDOUT" })],
         jobs := [{ worksheet_id := "ws_20260228_ab12cd", state := "failed", attempts := some 1,
                    queued_at := some (.stamp 50), started_at := none }] },
       [{ worksheet_id := "ws_20260228_ab12cd", state := "failed",
          error := some "npm install failed (1)\nETIMEDOUT" }]) := by
  rw [(c2_per_job_failure_contained
    { mstore := [("ws_20260228_ab12cd", { worksheet_id := "ws_20260228_ab12cd" })],
      jobs := [{ worksheet_id := "ws_20260228_ab12cd", state := "queued", attempts := some 0,
                 queued_at := some (.stamp 50), started_at := none }] }
    "ws_20260228_ab12cd" "codex" sampleEffectsRun (.stamp 9000) [] _
    "npm install failed (1)\nETIMEDOUT" (by decide) rfl rfl
    ⟨_, List.mem_singleton_self _, rfl⟩).1]
  rfl

/-- C10: a worksheet ID with no metadata file makes `processWorksheet`
throw before any pipeline step runs (the state is untouched), and the
`markFailure` call in the per-job catch block throws again because
`updateMetadata` requires existing metadata — so the error escapes the
per-job boundary and the whole batch run fails instead of recording the
job and moving on. -/
theorem c10_missing_metadata_aborts_batch
    (st : PipelineState) (w mode : String) (eff : String → StepEffects) (now : TimeVal)
    (rest : List String)
    (hmeta : lookupMeta st.mstore w = none) :
    processWorksheet st w mode (eff w) now = (st, .error ("No metadata found for " ++ w)) ∧
    runBatch st (w :: rest) mode eff now = .error ("Missing metadata for " ++ w) := by
  have h1 : processWorksheet st w mode (eff w) now =
      (st, .error ("No metadata found for " ++ w)) := by
    unfold processWorksheet
    rw [hmeta]
  refine ⟨h1, ?_⟩
  conv_lhs => rw [runBatch]
  rw [h1]
  dsimp only
  unfold markFailure updateMetadata
  rw [hmeta]

/-- C10 witness. -/
theorem c10_witness :
    processWorksheet { mstore := [], jobs := [] } "ws_20260228_ab12cd" "codex"
        (sampleEffectsRun "ws_20260228_ab12cd") (.stamp 0) =
      ({ mstore := [], jobs := [] }, .error "No metadata found for ws_20260228_ab12cd") ∧
    runBatch { mstore := [], jobs := [] } ["ws_20260228_ab12cd", "ws_20260228_deadbe"] "codex"
        sampleEffectsRun (.stamp 0) = .error "Missing metadata for ws_20260228_ab12cd" :=
  c10_missing_metadata_aborts_batch { mstore := [], jobs := [] } "ws_20260228_ab12cd" "codex"
    sampleEffectsRun (.stamp 0) ["ws_20260228_deadbe"] rfl

/-! ### C1 / C6: job discovery lemmas -/

theorem lookupMeta_append_left (ms l : MetaStore) (w : String) (m : WorksheetMetadata)
    (h : lookupMeta ms w = some m) : lookupMeta (ms ++ l) w = some m := by
  induction ms with
  | nil => simp [lookupMeta] at h
  | cons e rest ih =>
    by_cases he : (e.1 == w) = true
    · simp only [lookupMeta, he, if_true] at h
      simp only [List.cons_append, lookupMeta, he, if_true]
      exact h
    · have he' : (e.1 == w) = false := by
        revert he
        cases e.1 == w <;> simp
      simp only [lookupMeta, he', Bool.false_eq_true, if_false] at h
      simp only [List.cons_append, lookupMeta, he', Bool.false_eq_true, if_false]
      exact ih h

theorem lookupMeta_mem (ms : MetaStore) (w : String) (m : WorksheetMetadata)
    (h : lookupMeta ms w = some m) : (w, m) ∈ ms := by
  induction ms with
  | nil => simp [lookupMeta] at h
  | cons e rest ih =>
    by_cases he : (e.1 == w) = true
    · simp only [lookupMeta, he, if_true, Option.some.injEq] at h
      have h1 : e.1 = w := by simpa using he
      have : e = (w, m) := by
        cases e
        simp_all
      rw [← this]
      exact List.mem_cons_self e rest
    · have he' : (e.1 == w) = false := by
        revert he
        cases e.1 == w <;> simp
      simp only [lookupMeta, he', Bool.false_eq_true, if_false] at h
      exact List.mem_cons_of_mem e (ih h)

theorem mem_of_mem_dedup (seen l : List String) (x : String)
    (h : x ∈ dedupKeepFirst seen l) : x ∈ l := by
  induction l generalizing seen with
  | nil => cases h
  | cons y ys ih =>
    unfold dedupKeepFirst at h
    by_cases hy : seen.contains y = true
    · simp only [hy, if_true] at h
      exact List.mem_cons_of_mem y (ih seen h)
    · have hy' : seen.contains y = false := by
        revert hy
        cases seen.contains y <;> simp
      simp only [hy', Bool.false_eq_true, if_false] at h
      rcases h with _ | ⟨_, h⟩
      · exact List.mem_cons_self _ _
      · exact List.mem_cons_of_mem y (ih (y :: seen) h)

theorem mem_dedup_of_mem (seen l : List String) (x : String)
    (h1 : x ∈ l) (h2 : seen.contains x = false) : x ∈ dedupKeepFirst seen l := by
  induction l generalizing seen with
  | nil => cases h1
  | cons y ys ih =>
    unfold dedupKeepFirst
    by_cases hxy : x = y
    · subst hxy
      simp only [h2, Bool.false_eq_true, if_false]
      exact List.mem_cons_self x _
    · have hmem : x ∈ ys := by
        rcases h1 with _ | ⟨_, h1⟩
        · exact absurd rfl hxy
        · exact h1
      by_cases hy : seen.contains y = true
      · simp only [hy, if_true]
        exact ih seen hmem h2
      · have hy' : seen.contains y = false := by
          revert hy
          cases seen.contains y <;> simp
        simp only [hy', Bool.false_eq_true, if_false]
        refine List.mem_cons_of_mem y (ih (y :: seen) hmem ?_)
        simp only [List.contains_cons, Bool.or_eq_false_iff]
        constructor
        · simpa using hxy
        · exact h2

theorem scanIntake_not_mem (intake : List IntakeEntry) (mstore : MetaStore)
    (x : String) (m : WorksheetMetadata)
    (h : lookupMeta mstore x = some m) (hs : (m.state == "queued") = false) :
    x ∉ (scanIntake intake mstore).1 := by
  induction intake generalizing mstore with
  | nil => intro hc; cases hc
  | cons entry rest ih =>
    intro hc
    unfold scanIntake at hc
    by_cases hg : (isWorksheetId entry.name && entry.hasZip) = true
    · simp only [hg, if_true] at hc
      by_cases hname : entry.name = x
      · subst hname
        unfold ensureMetadataFromIntake at hc
        rw [h] at hc
        dsimp only at hc
        rw [hs] at hc
        simp only [Bool.false_eq_true, if_false] at hc
        exact ih mstore h hc
      · rcases hem : ensureMetadataFromIntake entry.name entry.mtime mstore with ⟨md, mstore1⟩
        rw [hem] at hc
        dsimp only at hc
        have h1 : lookupMeta mstore1 x = some m := by
          unfold ensureMetadataFromIntake at hem
          rcases hl : lookupMeta mstore entry.name with _ | me
          · rw [hl] at hem
            dsimp only at hem
            have : mstore1 = mstore ++ [(entry.name, _)] := congrArg Prod.snd hem.symm
            rw [this]
            exact lookupMeta_append_left mstore _ x m h
          · rw [hl] at hem
            dsimp only at hem
            have : mstore1 = mstore := congrArg Prod.snd hem.symm
            rw [this]
            exact h
        by_cases hmd : (md.state == "queued") = true
        · simp only [hmd, if_true] at hc
          rcases hc with _ | ⟨_, hc⟩
          · exact hname rfl
          · exact ih mstore1 h1 hc
        · have hmd' : (md.state == "queued") = false := by
            revert hmd
            cases md.state == "queued" <;> simp
          simp only [hmd', Bool.false_eq_true, if_false] at hc
          exact ih mstore1 h1 hc
    · have hg' : (isWorksheetId entry.name && entry.hasZip) = false := by
        revert hg
        cases isWorksheetId entry.name && entry.hasZip <;> simp
      simp only [hg', Bool.false_eq_true, if_false] at hc
      exact ih mstore h hc

theorem jobSelects_some_id (env : DiscoveryEnv) (mstore : MetaStore) (j : PendingJob)
    (v : String) (h : jobSelects env mstore j = some v) : v = jsTrim j.worksheet_id := by
  unfold jobSelects at h
  dsimp only at h
  split at h
  · exact Option.noConfusion h
  · split at h
    · exact (Option.some.inj h).symm
    · split at h
      · split at h
        · exact (Option.some.inj h).symm
        · exact Option.noConfusion h
      · split at h
        · split at h
          · exact Option.noConfusion h
          · split at h
            · exact (Option.some.inj h).symm
            · exact Option.noConfusion h
        · exact Option.noConfusion h

theorem jobSelects_failed_cap_transient (env : DiscoveryEnv) (mstore : MetaStore)
    (j : PendingJob) (v : String) (h : jobSelects env mstore j = some v)
    (hf : j.state = "failed") :
    retryOf env = true ∧ j.attempts.getD 0 < (maxAttemptsOf env : Int) ∧
    isRetryableFailure
      ((lookupMeta mstore (jsTrim j.worksheet_id)).bind WorksheetMetadata.last_error) = true := by
  unfold jobSelects at h
  dsimp only at h
  rw [hf] at h
  simp only [show ("failed" == "queued") = false from rfl,
    show ("failed" == "processing") = false from rfl, Bool.false_eq_true, if_false] at h
  split at h
  · exact Option.noConfusion h
  · rename_i hcond
    split at h
    · rename_i hretry
      split at h
      · exact Option.noConfusion h
      · rename_i hcap
        split at h
        · rename_i htrans
          refine ⟨?_, ?_, htrans⟩
          · have := hretry
            simp only [Bool.and_eq_true] at this
            exact this.1
          · omega
        · exact Option.noConfusion h
    · exact Option.noConfusion h

theorem jobSelects_failed_nontransient (env : DiscoveryEnv) (mstore : MetaStore)
    (j : PendingJob) (hf : j.state = "failed")
    (ht : isRetryableFailure
      ((lookupMeta mstore (jsTrim j.worksheet_id)).bind WorksheetMetadata.last_error) = false) :
    jobSelects env mstore j = none := by
  unfold jobSelects
  dsimp only
  rw [hf]
  simp only [show ("failed" == "queued") = false from rfl,
    show ("failed" == "processing") = false from rfl, Bool.false_eq_true, if_false, ht]
  split
  · rfl
  · split
    · split
      · rfl
      · rfl
    · rfl

theorem metaSelects_some_id (env : DiscoveryEnv) (e : String × WorksheetMetadata)
    (v : String) (h : metaSelects env e = some v) : v = jsTrim e.2.worksheet_id := by
  unfold metaSelects at h
  dsimp only at h
  split at h
  · exact (Option.some.inj h).symm
  · split at h
    · exact (Option.some.inj h).symm
    · exact Option.noConfusion h

theorem metaSelects_processing (env : DiscoveryEnv) (e : String × WorksheetMetadata)
    (hs : e.2.state = "processing") : metaSelects env e = none := by
  unfold metaSelects
  dsimp only
  rw [hs]
  simp only [show ("processing" == "queued") = false from rfl,
    show ("processing" == "failed") = false from rfl, Bool.false_eq_true, Bool.and_false,
    Bool.false_and, if_false]

theorem metaSelects_failed_nontransient (env : DiscoveryEnv) (e : String × WorksheetMetadata)
    (hs : e.2.state = "failed") (ht : isRetryableFailure e.2.last_error = false) :
    metaSelects env e = none := by
  unfold metaSelects
  dsimp only
  rw [hs]
  simp only [show ("failed" == "queued") = false from rfl, Bool.false_eq_true, if_false, ht,
    Bool.and_false]

/-- C6 counterexample: with the default 20-minute threshold, a
`processing` job whose `started_at` is *exactly* the threshold old — not
strictly older — is still re-selected, because the code compares with
`>=`. -/
theorem c6_counterexample :
    (resolveWorksheetIds { nowMs := 1200000 } none
      [{ worksheet_id := "ws_20260228_ab12cd", state := "processing", attempts := some 1,
         started_at := some (.stamp 0) }]
      [("ws_20260228_ab12cd", { worksheet_id := "ws_20260228_ab12cd", state := "processing" })]
      []).1 = ["ws_20260228_ab12cd"] ∧
    staleMsOf { nowMs := 1200000 } = 20 * 60 * 1000 ∧
    parseTime (some (.stamp 0)) = some 0 ∧
    ¬ strictlyOlderThan 1200000 0 (20 * 60 * 1000) := by
  refine ⟨by decide, by decide, by decide, ?_⟩
  unfold strictlyOlderThan
  decide

/-- C6 amended: with no explicit target, a `processing` pending-list job
(whose metadata is consistently in state `processing`) is re-selected
exactly when its `started_at` is missing/unparsable or its age is at
least (`>=`, not strictly greater than) the staleness threshold. -/
theorem c6_amended_stale_reclaim
    (env : DiscoveryEnv) (jobs : List PendingJob) (mstore : MetaStore)
    (intake : List IntakeEntry) (job : PendingJob) (w : String) (m : WorksheetMetadata)
    (hjob : job ∈ jobs) (hid : jsTrim job.worksheet_id = w) (hne : w ≠ "")
    (hstate : job.state = "processing")
    (huniq : ∀ j ∈ jobs, jsTrim j.worksheet_id = w → j = job)
    (hmeta : lookupMeta mstore w = some m)
    (hmetaall : ∀ e ∈ mstore, (e.1 = w ∨ jsTrim e.2.worksheet_id = w) →
      e.2.state = "processing") :
    w ∈ (resolveWorksheetIds env none jobs mstore intake).1 ↔
      (parseTime job.started_at = none ∨
       ∃ s, parseTime job.started_at = some s ∧
         env.nowMs - s ≥ (staleMsOf env : Int)) := by
  have hne' : (w == "") = false := by
    cases e : w == ""
    · rfl
    · exact absurd (by simpa using e) hne
  unfold resolveWorksheetIds resolveScan
  dsimp only
  constructor
  · intro hmem
    have hl := mem_of_mem_dedup [] _ w hmem
    rw [List.mem_append] at hl
    rcases hl with hl | hi
    · rw [List.mem_append] at hl
      rcases hl with hq | hm
      · unfold scanQueue at hq
        rw [List.mem_filterMap] at hq
        obtain ⟨j, hj, hsel⟩ := hq
        have hvid := jobSelects_some_id env mstore j w hsel
        have hjeq : j = job := huniq j hj hvid.symm
        rw [hjeq] at hsel
        unfold jobSelects at hsel
        dsimp only at hsel
        rw [hid, hstate] at hsel
        simp only [hne', show ("processing" == "queued") = false from rfl,
          show ("processing" == "processing") = true from rfl, Bool.false_eq_true, if_false,
          if_true] at hsel
        split at hsel
        · rename_i hstale
          rcases hp : parseTime job.started_at with _ | s
          · exact Or.inl rfl
          · rw [hp] at hstale
            refine Or.inr ⟨s, rfl, ?_⟩
            simpa using hstale
        · exact Option.noConfusion hsel
      · unfold scanMetadata at hm
        rw [List.mem_filterMap] at hm
        obtain ⟨e, he, hsel⟩ := hm
        have hvid := metaSelects_some_id env e w hsel
        have hproc : e.2.state = "processing" := hmetaall e he (Or.inr hvid.symm)
        rw [metaSelects_processing env e hproc] at hsel
        exact Option.noConfusion hsel
    · exfalso
      have hqf : (m.state == "queued") = false := by
        have hms : m.state = "processing" :=
          hmetaall (w, m) (lookupMeta_mem mstore w m hmeta) (Or.inl rfl)
        rw [hms]
        rfl
      exact scanIntake_not_mem intake mstore w m hmeta hqf hi
  · intro hstale
    apply mem_dedup_of_mem
    · rw [List.mem_append]
      left
      rw [List.mem_append]
      left
      unfold scanQueue
      rw [List.mem_filterMap]
      refine ⟨job, hjob, ?_⟩
      unfold jobSelects
      dsimp only
      rw [hid, hstate]
      simp only [hne', show ("processing" == "queued") = false from rfl,
        show ("processing" == "processing") = true from rfl, Bool.false_eq_true, if_false,
        if_true]
      rcases hstale with hp | ⟨s, hp, hge⟩
      · rw [hp]
        rfl
      · rw [hp]
        simp [hge]
    · rfl

/-- C6 witness. -/
theorem c6_witness :
    "ws_20260228_ab12cd" ∈ (resolveWorksheetIds { nowMs := 2000000 } none
      [{ worksheet_id := "ws_20260228_ab12cd", state := "processing", attempts := some 1,
         started_at := some (.stamp 0) }]
      [("ws_20260228_ab12cd", { worksheet_id := "ws_20260228_ab12cd", state := "processing" })]
      []).1 :=
  (c6_amended_stale_reclaim { nowMs := 2000000 }
    [{ worksheet_id := "ws_20260228_ab12cd", state := "processing", attempts := some 1,
       started_at := some (.stamp 0) }]
    [("ws_20260228_ab12cd", { worksheet_id := "ws_20260228_ab12cd", state := "processing" })]
    []
    { worksheet_id := "ws_20260228_ab12cd", state := "processing", attempts := some 1,
      started_at := some (.stamp 0) }
    "ws_20260228_ab12cd"
    { worksheet_id := "ws_20260228_ab12cd", state := "processing" }
    (List.mem_singleton_self _) (by decide) (by decide) rfl (by decide) rfl
    (by decide)).mpr (Or.inr ⟨0, rfl, by decide⟩)

/-- C1 counterexample: with retries enabled (default) and the default cap
of 4, a failed job whose attempts count equals the cap but whose
`last_error` is transient is still selected — the metadata-directory scan
re-discovers it without any attempts-cap check. -/
theorem c1_counterexample :
    (resolveWorksheetIds { nowMs := 0 } none
      [{ worksheet_id := "ws_20260228_ab12cd", state := "failed", attempts := some 4 }]
      [("ws_20260228_ab12cd",
        { worksheet_id := "ws_20260228_ab12cd", state := "failed",
          last_error := some "ETIMEDOUT" })]
      []).1 = ["ws_20260228_ab12cd"] ∧
    retryOf { nowMs := 0 } = true ∧
    maxAttemptsOf { nowMs := 0 } = 4 ∧
    ¬ ((some (4 : Int)).getD 0 < ((maxAttemptsOf { nowMs := 0 } : Nat) : Int)) ∧
    isRetryableFailure (some "ETIMEDOUT") = true := by
  decide

/-- C1 amended: the attempts cap and transient-error test govern the
pending-list scan — a failed pending-list job is selected there only with
retries on, attempts strictly below the cap, and a transient metadata
`last_error` — and a failed job with a non-transient `last_error` is never
selected by any scan; but the metadata-directory scan ignores the
attempts cap (see the counterexample). -/
theorem c1_amended_retry_selection :
    (∀ (env : DiscoveryEnv) (mstore : MetaStore) (j : PendingJob) (v : String),
      jobSelects env mstore j = some v → j.state = "failed" →
      retryOf env = true ∧ j.attempts.getD 0 < (maxAttemptsOf env : Int) ∧
      isRetryableFailure
        ((lookupMeta mstore (jsTrim j.worksheet_id)).bind WorksheetMetadata.last_error) = true) ∧
    (∀ (env : DiscoveryEnv) (jobs : List PendingJob) (mstore : MetaStore)
      (intake : List IntakeEntry) (w : String) (m : WorksheetMetadata),
      (∀ j ∈ jobs, jsTrim j.worksheet_id = w → j.state = "failed") →
      lookupMeta mstore w = some m → m.state = "failed" →
      isRetryableFailure m.last_error = false →
      (∀ e ∈ mstore, jsTrim e.2.worksheet_id = w → e.2 = m) →
      w ∉ (resolveWorksheetIds env none jobs mstore intake).1) := by
  constructor
  · exact fun env mstore j v h hf => jobSelects_failed_cap_transient env mstore j v h hf
  · intro env jobs mstore intake w m hq hmeta hmstate hnt hma hmem
    unfold resolveWorksheetIds resolveScan at hmem
    dsimp only at hmem
    have hl := mem_of_mem_dedup [] _ w hmem
    rw [List.mem_append] at hl
    rcases hl with hl | hi
    · rw [List.mem_append] at hl
      rcases hl with hql | hml
      · unfold scanQueue at hql
        rw [List.mem_filterMap] at hql
        obtain ⟨j, hj, hsel⟩ := hql
        have hvid := jobSelects_some_id env mstore j w hsel
        have hjf : j.state = "failed" := hq j hj hvid.symm
        have : jobSelects env mstore j = none := by
          apply jobSelects_failed_nontransient env mstore j hjf
          rw [← hvid, hmeta]
          exact hnt
        rw [this] at hsel
        exact Option.noConfusion hsel
      · unfold scanMetadata at hml
        rw [List.mem_filterMap] at hml
        obtain ⟨e, he, hsel⟩ := hml
        have hvid := metaSelects_some_id env e w hsel
        have hem : e.2 = m := hma e he hvid.symm
        have : metaSelects env e = none := by
          apply metaSelects_failed_nontransient env e
          · rw [hem]
            exact hmstate
          · rw [hem]
            exact hnt
        rw [this] at hsel
        exact Option.noConfusion hsel
    · have hqf : (m.state == "queued") = false := by
        rw [hmstate]
        rfl
      exact scanIntake_not_mem intake mstore w m hmeta hqf hi

/-- C1 witness. -/
theorem c1_witness :
    (retryOf { nowMs := 0 } = true ∧
      (some (1 : Int)).getD 0 < ((maxAttemptsOf { nowMs := 0 } : Nat) : Int) ∧
      isRetryableFailure
        ((lookupMeta
            [("ws_20260228_ab12cd",
              { worksheet_id := "ws_20260228_ab12cd", state := "failed",
                last_error := some "ETIMEDOUT" })]
            (jsTrim "ws_20260228_ab12cd")).bind WorksheetMetadata.last_error) = true) ∧
    "ws_20260228_ab12cd" ∉ (resolveWorksheetIds { nowMs := 0 } none
      [{ worksheet_id := "ws_20260228_ab12cd", state := "failed", attempts := some 1 }]
      [("ws_20260228_ab12cd",
        { worksheet_id := "ws_20260228_ab12cd", state := "failed",
          last_error := some "Error: npm run build failed (1)" })]
      []).1 := by
  constructor
  · have h := c1_amended_retry_selection.1 { nowMs := 0 }
      [("ws_20260228_ab12cd",
        { worksheet_id := "ws_20260228_ab12cd", state := "failed",
          last_error := some "ETIMEDOUT" })]
      { worksheet_id := "ws_20260228_ab12cd", state := "failed", attempts := some 1 }
      "ws_20260228_ab12cd" (by decide) rfl
    exact h
  · exact c1_amended_retry_selection.2 { nowMs := 0 }
      [{ worksheet_id := "ws_20260228_ab12cd", state := "failed", attempts := some 1 }]
      [("ws_20260228_ab12cd",
        { worksheet_id := "ws_20260228_ab12cd", state := "failed",
          last_error := some "Error: npm run build failed (1)" })]
      [] "ws_20260228_ab12cd"
      { worksheet_id := "ws_20260228_ab12cd", state := "failed",
        last_error := some "Error: npm run build failed (1)" }
      (by decide) rfl rfl (by decide) (by decide)

/-! ### C8: process supervisor -/

theorem runEvents_append (cfg : RunCfg) (st : RunState) (acts : List RunAction)
    (l1 l2 : List RunEvent) :
    runEvents cfg st acts (l1 ++ l2) =
      runEvents cfg (runEvents cfg st acts l1).1 (runEvents cfg st acts l1).2 l2 := by
  induction l1 generalizing st acts with
  | nil => rfl
  | cons e rest ih =>
    simp only [List.cons_append, runEvents]
    exact ih _ _

theorem runStep_ok_source (cfg : RunCfg) (st : RunState) (e : RunEvent)
    (v : String × String) (h : (runStep cfg st e).1.result = some (.ok v)) :
    st.result = some (.ok v) ∨ e = .closeEv (some 0) := by
  cases e with
  | dataOut s => exact Or.inl h
  | dataErr s => exact Or.inl h
  | softTimeout =>
    simp only [runStep] at h
    split at h
    · exact Or.inl h
    · exact Or.inl h
  | hardTimeout =>
    simp only [runStep] at h
    split at h
    · exact Or.inl h
    · exact Or.inl h
  | closeEv code =>
    simp only [runStep] at h
    split at h
    · exact Or.inl h
    · dsimp only at h
      rw [Option.some.injEq] at h
      by_cases hc : (code == some 0) = true
      · right
        have : code = some 0 := by simpa using hc
        rw [this]
      · exfalso
        have hc' : (code == some 0) = false := by
          revert hc
          cases code == some 0 <;> simp
        rw [hc'] at h
        simp at h
  | errorEv msg =>
    simp only [runStep] at h
    split at h
    · exact Or.inl h
    · dsimp only at h
      rw [Option.some.injEq] at h
      exact absurd h (by simp)

theorem runEvents_ok_close (cfg : RunCfg) (events : List RunEvent) (st : RunState)
    (acts : List RunAction) (v : String × String)
    (h : (runEvents cfg st acts events).1.result = some (.ok v)) :
    st.result = some (.ok v) ∨ RunEvent.closeEv (some 0) ∈ events := by
  induction events generalizing st acts with
  | nil => exact Or.inl h
  | cons e rest ih =>
    simp only [runEvents] at h
    rcases ih _ _ h with hr | hmem
    · rcases runStep_ok_source cfg st e v hr with hst | hev
      · exact Or.inl hst
      · right
        rw [hev]
        exact List.mem_cons_self _ _
    · exact Or.inr (List.mem_cons_of_mem e hmem)

/-- C8: (1) the promise resolves only when a `close` with exit code 0
arrives; (2) a first-settling `close` with code 0 resolves with exactly
the captured stdout/stderr; (3) a first-settling `close` with a non-zero
(or `null`) code rejects with the message embedding the captured
stdout and stderr; (4) when a timeout is configured and the soft timer
fires before the child exits, the handlers send `SIGTERM` and arm the
5000 ms hard-kill timer, and a later hard-timer fire on a still-running
child sends `SIGKILL`. -/
theorem c8_run_exit_and_timeout (cfg : RunCfg) :
    (∀ (events : List RunEvent) (v : String × String),
      (runEvents cfg initRunState [] events).1.result = some (.ok v) →
      RunEvent.closeEv (some 0) ∈ events) ∧
    (∀ pre : List RunEvent,
      (runEvents cfg initRunState [] pre).1.finished = false →
      (runEvents cfg initRunState [] (pre ++ [.closeEv (some 0)])).1.result =
        some (.ok ((runEvents cfg initRunState [] pre).1.stdout,
          (runEvents cfg initRunState [] pre).1.stderr))) ∧
    (∀ (pre : List RunEvent) (code : Option Int), code ≠ some 0 →
      (runEvents cfg initRunState [] pre).1.finished = false →
      (runEvents cfg initRunState [] (pre ++ [.closeEv code])).1.result =
        some (.error (failMessage cfg (runEvents cfg initRunState [] pre).1.stdout
          (runEvents cfg initRunState [] pre).1.stderr code))) ∧
    (cfg.timeoutMs ≠ 0 →
      ∀ pre : List RunEvent,
      (runEvents cfg initRunState [] pre).1.finished = false →
      (runEvents cfg initRunState [] (pre ++ [.softTimeout])).2 =
        (runEvents cfg initRunState [] pre).2 ++ [.sigterm, .armHardKill 5000] ∧
      (runEvents cfg initRunState [] (pre ++ [.softTimeout, .hardTimeout])).2 =
        (runEvents cfg initRunState [] pre).2 ++ [.sigterm, .armHardKill 5000, .sigkill]) := by
  refine ⟨?_, ?_, ?_, ?_⟩
  · intro events v h
    rcases runEvents_ok_close cfg events initRunState [] v h with hinit | hmem
    · exact absurd hinit (by simp [initRunState])
    · exact hmem
  · intro pre hfin
    rw [runEvents_append]
    simp only [runEvents, runStep, hfin, Bool.false_eq_true, if_false]
    rfl
  · intro pre code hcode hfin
    have hc' : (code == some 0) = false := by
      cases e : code == some 0
      · rfl
      · exact absurd (by simpa using e) hcode
    rw [runEvents_append]
    simp only [runEvents, runStep, hfin, Bool.false_eq_true, if_false, hc']
  · intro htm pre hfin
    have ht' : (cfg.timeoutMs == 0) = false := by
      cases e : cfg.timeoutMs == 0
      · rfl
      · exact absurd (by simpa using e) htm
    constructor
    · rw [runEvents_append]
      simp only [runEvents, runStep, hfin, ht', Bool.or_self, Bool.false_eq_true, if_false,
        Bool.or_false]
    · rw [runEvents_append]
      simp only [runEvents, runStep, hfin, ht', Bool.or_false, Bool.false_eq_true, if_false,
        Bool.and_true, Bool.not_false, List.append_assoc]
      rfl

/-- C8 witness. -/
theorem c8_witness :
    RunEvent.closeEv (some 0) ∈ [RunEvent.dataOut "hello", RunEvent.closeEv (some 0)] ∧
    (runEvents sampleRunCfg initRunState []
        ([RunEvent.dataOut "out", RunEvent.dataErr "err"] ++
          [RunEvent.closeEv (some 2)])).1.result =
      some (.error (failMessage sampleRunCfg "out" "err" (some 2))) ∧
    (runEvents sampleRunCfg initRunState [] ([] ++ [RunEvent.softTimeout])).2 =
      [] ++ [RunAction.sigterm, RunAction.armHardKill 5000] :=
  ⟨(c8_run_exit_and_timeout sampleRunCfg).1
      [RunEvent.dataOut "hello", RunEvent.closeEv (some 0)] ("hello", "") rfl,
   (c8_run_exit_and_timeout sampleRunCfg).2.2.1
      [RunEvent.dataOut "out", RunEvent.dataErr "err"] (some 2) (by decide) rfl,
   ((c8_run_exit_and_timeout sampleRunCfg).2.2.2 (by decide)
      [] rfl).1⟩
